import Mathlib

/-!
# Verification of the UAI_Benchmarking evaluation harness

Shallow embedding of the scoring, evaluation-loop and aggregation logic of
the repository (src/scripts/score_answer.py, evaluation_pipeline.py,
calc_scores.py, ask_model.py, load_ground_truth.py, utils.py), together
with theorems settling the specification claims.

Modelling conventions:
* Python/JSON values are modelled by the inductive type `Json`; Python
  `float` is modelled by `ℚ` (exact arithmetic; non-finite floats such as
  `inf`/`nan` and binary rounding are outside the model, no claim depends
  on them).
* Python `dict`s coming from `json.loads` have unique, insertion-ordered
  keys; they are modelled as association lists with unique keys by
  construction, and the dictionary primitives (`dictGet`, `dictSet`,
  `dictSetdefault`, `dictUpd`) mirror Python semantics on such lists.
* Python strings are modelled as `List Char` (`String.data`); the helpers
  `pyStrip`, `removeJson`, etc. mirror `str.strip`, `str.replace` and
  friends as used by the source.
* Network calls, environment variables and prompt files are external
  collaborators; they enter as explicit oracle parameters
  (`Option String` for the API key, functions for HTTP calls and prompt
  contents).  Exceptions are modelled by `Except String`, the payload
  being the Python exception text `str(e)`.
-/

/-- JSON values as produced by `json.loads` (objects keep insertion order;
duplicate keys are collapsed keeping the last value, as Python does). -/
inductive Json where
  | null : Json
  | bool (b : Bool) : Json
  | num (q : ℚ) : Json
  | str (s : String) : Json
  | arr (xs : List Json) : Json
  | obj (kvs : List (String × Json)) : Json
deriving Inhabited

mutual

/-- Decidable equality of JSON values (the derive handler does not support
this nested inductive). -/
def Json.decEq : (a b : Json) → Decidable (a = b)
  | .null, .null => isTrue rfl
  | .bool a, .bool b =>
    if h : a = b then isTrue (congrArg Json.bool h)
    else isFalse (fun he => h (Json.bool.inj he))
  | .num a, .num b =>
    if h : a = b then isTrue (congrArg Json.num h)
    else isFalse (fun he => h (Json.num.inj he))
  | .str a, .str b =>
    if h : a = b then isTrue (congrArg Json.str h)
    else isFalse (fun he => h (Json.str.inj he))
  | .arr a, .arr b =>
    match Json.decEqArr a b with
    | isTrue h => isTrue (congrArg Json.arr h)
    | isFalse h => isFalse (fun he => h (Json.arr.inj he))
  | .obj a, .obj b =>
    match Json.decEqObj a b with
    | isTrue h => isTrue (congrArg Json.obj h)
    | isFalse h => isFalse (fun he => h (Json.obj.inj he))
  | .null, .bool _ => isFalse (fun h => Json.noConfusion h)
  | .null, .num _ => isFalse (fun h => Json.noConfusion h)
  | .null, .str _ => isFalse (fun h => Json.noConfusion h)
  | .null, .arr _ => isFalse (fun h => Json.noConfusion h)
  | .null, .obj _ => isFalse (fun h => Json.noConfusion h)
  | .bool _, .null => isFalse (fun h => Json.noConfusion h)
  | .bool _, .num _ => isFalse (fun h => Json.noConfusion h)
  | .bool _, .str _ => isFalse (fun h => Json.noConfusion h)
  | .bool _, .arr _ => isFalse (fun h => Json.noConfusion h)
  | .bool _, .obj _ => isFalse (fun h => Json.noConfusion h)
  | .num _, .null => isFalse (fun h => Json.noConfusion h)
  | .num _, .bool _ => isFalse (fun h => Json.noConfusion h)
  | .num _, .str _ => isFalse (fun h => Json.noConfusion h)
  | .num _, .arr _ => isFalse (fun h => Json.noConfusion h)
  | .num _, .obj _ => isFalse (fun h => Json.noConfusion h)
  | .str _, .null => isFalse (fun h => Json.noConfusion h)
  | .str _, .bool _ => isFalse (fun h => Json.noConfusion h)
  | .str _, .num _ => isFalse (fun h => Json.noConfusion h)
  | .str _, .arr _ => isFalse (fun h => Json.noConfusion h)
  | .str _, .obj _ => isFalse (fun h => Json.noConfusion h)
  | .arr _, .null => isFalse (fun h => Json.noConfusion h)
  | .arr _, .bool _ => isFalse (fun h => Json.noConfusion h)
  | .arr _, .num _ => isFalse (fun h => Json.noConfusion h)
  | .arr _, .str _ => isFalse (fun h => Json.noConfusion h)
  | .arr _, .obj _ => isFalse (fun h => Json.noConfusion h)
  | .obj _, .null => isFalse (fun h => Json.noConfusion h)
  | .obj _, .bool _ => isFalse (fun h => Json.noConfusion h)
  | .obj _, .num _ => isFalse (fun h => Json.noConfusion h)
  | .obj _, .str _ => isFalse (fun h => Json.noConfusion h)
  | .obj _, .arr _ => isFalse (fun h => Json.noConfusion h)

/-- Decidable equality of JSON array bodies. -/
def Json.decEqArr : (a b : List Json) → Decidable (a = b)
  | [], [] => isTrue rfl
  | [], _ :: _ => isFalse (fun h => List.noConfusion h)
  | _ :: _, [] => isFalse (fun h => List.noConfusion h)
  | x :: xs, y :: ys =>
    match Json.decEq x y with
    | isTrue h1 =>
      match Json.decEqArr xs ys with
      | isTrue h2 => isTrue (by rw [h1, h2])
      | isFalse h2 => isFalse (fun he => h2 (List.cons.inj he).2)
    | isFalse h1 => isFalse (fun he => h1 (List.cons.inj he).1)

/-- Decidable equality of JSON object bodies. -/
def Json.decEqObj : (a b : List (String × Json)) → Decidable (a = b)
  | [], [] => isTrue rfl
  | [], _ :: _ => isFalse (fun h => List.noConfusion h)
  | _ :: _, [] => isFalse (fun h => List.noConfusion h)
  | (k1, v1) :: xs, (k2, v2) :: ys =>
    if hk : k1 = k2 then
      match Json.decEq v1 v2 with
      | isTrue hv =>
        match Json.decEqObj xs ys with
        | isTrue ht => isTrue (by rw [hk, hv, ht])
        | isFalse ht => isFalse (fun he => ht (List.cons.inj he).2)
      | isFalse hv => isFalse (fun he => hv (congrArg Prod.snd (List.cons.inj he).1))
    else isFalse (fun he => hk (congrArg Prod.fst (List.cons.inj he).1))

end

instance : DecidableEq Json := Json.decEq

/-- A parsed JSON object / Python dict body. -/
abbrev JObj := List (String × Json)

/-- `m[k]` lookup on a unique-key dict (first — hence only — match). -/
def dictGet {κ α : Type} [DecidableEq κ] (m : List (κ × α)) (k : κ) : Option α :=
  (m.find? (fun p => p.1 = k)).map (fun p => p.2)

/-- Python `m.get(k, d)`: the stored value when the key is present (even if
it is `None`), else the default. -/
def dictGetD {κ α : Type} [DecidableEq κ] (m : List (κ × α)) (k : κ) (d : α) : α :=
  (dictGet m k).getD d

/-- Python `m[k] = v` on a unique-key insertion-ordered dict: overwrite in
place if present, else append. -/
def dictSet {κ α : Type} [DecidableEq κ] : List (κ × α) → κ → α → List (κ × α)
  | [], k, v => [(k, v)]
  | (k0, v0) :: rest, k, v =>
    if k0 = k then (k0, v) :: rest else (k0, v0) :: dictSet rest k v

/-- Python `m.setdefault(k, v)`. -/
def dictSetdefault {κ α : Type} [DecidableEq κ] (m : List (κ × α)) (k : κ) (v : α) :
    List (κ × α) :=
  if (dictGet m k).isSome then m else m ++ [(k, v)]

/-- `defaultdict`-style update: apply `f` to the value at `k` (or to the
default `d` if absent, appending the new entry). -/
def dictUpd {κ α : Type} [DecidableEq κ] : List (κ × α) → κ → (α → α) → α → List (κ × α)
  | [], k, f, d => [(k, f d)]
  | (k0, v0) :: rest, k, f, d =>
    if k0 = k then (k0, f v0) :: rest else (k0, v0) :: dictUpd rest k f d

/-- `.get` on a `Json` that is known to be an object (Python would raise
`AttributeError` otherwise; callers model that case explicitly). -/
def Json.asObjD : Json → JObj
  | .obj o => o
  | _ => []

/-- Python truthiness `bool(x)` of a JSON value. -/
def truthy : Json → Bool
  | .null => false
  | .bool b => b
  | .num q => q ≠ 0
  | .str s => s ≠ ""
  | .arr xs => !xs.isEmpty
  | .obj o => !o.isEmpty

/-- `judge_result.get(k)` with the Python default `None`. -/
def jgetD (j : JObj) (k : String) (d : Json) : Json := dictGetD j k d

/-- ASCII whitespace stripped by Python `str.strip()`. -/
def isPySpace (c : Char) : Bool :=
  c = ' ' || c = '\t' || c = '\n' || c = '\r' || c = Char.ofNat 11 || c = Char.ofNat 12

/-- Python `s.strip()` on a char-list string. -/
def pyStrip (l : List Char) : List Char :=
  ((l.dropWhile isPySpace).reverse.dropWhile isPySpace).reverse

/-- The backtick character (from `str.strip` of fence markers). -/
def btick : Char := Char.ofNat 96

/-- The two brace characters as used by `str.index` / `str.rindex`. -/
def lbrace : Char := Char.ofNat 123

def rbrace : Char := Char.ofNat 125

/-- Python `s.strip` of all leading/trailing backticks. -/
def stripTicks (l : List Char) : List Char :=
  ((l.dropWhile (fun c => c = btick)).reverse.dropWhile (fun c => c = btick)).reverse

/-- Python `s.startswith` of a triple backtick fence. -/
def startsTicks : List Char → Bool
  | c1 :: c2 :: c3 :: _ => c1 = btick && c2 = btick && c3 = btick
  | _ => false

/-- Python `s.replace("json", "")`: delete every (leftmost-first,
non-overlapping) occurrence of the literal characters `json`. -/
def removeJson : List Char → List Char
  | 'j' :: 's' :: 'o' :: 'n' :: rest => removeJson rest
  | c :: rest => c :: removeJson rest
  | [] => []

/-- The character list of the word removed by `removeJson`. -/
def jsonWord : List Char := ['j', 's', 'o', 'n']

/-- Parse the digits of a decimal literal; returns the digit run and the
rest. -/
def spanDigits (l : List Char) : List Char × List Char :=
  (l.takeWhile Char.isDigit, l.dropWhile Char.isDigit)

/-- Numeric value of a digit run. -/
def digitsVal (ds : List Char) : ℕ :=
  ds.foldl (fun acc c => 10 * acc + (c.toNat - 48)) 0

/-- Python `float(s)` on a string (finite decimal literals with optional
sign, fraction and exponent; whitespace is stripped as Python does.
`inf`/`nan` literals and numeric-literal underscores are outside the
model — no claim depends on them). -/
def parsePyFloatStr (l0 : List Char) : Option ℚ := Id.run do
  let l := pyStrip l0
  let (sign, l) :=
    match l with
    | '-' :: rest => ((-1 : ℚ), rest)
    | '+' :: rest => ((1 : ℚ), rest)
    | _ => ((1 : ℚ), l)
  let (ip, l) := spanDigits l
  let (fp, l) :=
    match l with
    | '.' :: rest => spanDigits rest
    | _ => ([], l)
  if ip.isEmpty && fp.isEmpty then return none
  let mantissa : ℚ := (digitsVal ip : ℚ) + (digitsVal fp : ℚ) / (10 : ℚ) ^ fp.length
  match l with
  | [] => return some (sign * mantissa)
  | e :: rest =>
    if e = 'e' || e = 'E' then
      let (esign, rest) :=
        match rest with
        | '-' :: r => (true, r)
        | '+' :: r => (false, r)
        | _ => (false, rest)
      let (eds, rest) := spanDigits rest
      if eds.isEmpty || !rest.isEmpty then return none
      let mag : ℚ := (10 : ℚ) ^ digitsVal eds
      return some (sign * (if esign then mantissa / mag else mantissa * mag))
    else
      return none

/-- Python `float(x)` on a JSON value: numbers pass through, booleans
coerce to `0`/`1`, strings are parsed; `None`, lists and dicts raise
(`TypeError`), modelled as `none`. -/
def pyFloat : Json → Option ℚ
  | .num q => some q
  | .bool b => some (if b then 1 else 0)
  | .str s => parsePyFloatStr s.data
  | _ => none

/-! ## `json.loads`

A recursive-descent model of `json.loads` with default settings: JSON
whitespace, objects/arrays/strings/numbers/literals, duplicate object keys
collapsed keeping the last value, the whole input consumed up to trailing
whitespace.  (The Python extensions `NaN`/`Infinity` and surrogate-pair
decoding are outside the model; no claim depends on them.) -/

/-- Whitespace skipped between JSON tokens. -/
def isJsonSpace (c : Char) : Bool :=
  c = ' ' || c = '\t' || c = '\n' || c = '\r'

/-- Skip JSON whitespace. -/
def jWs (l : List Char) : List Char := l.dropWhile isJsonSpace

/-- Hex digit value (code points 48-57, 97-102, 65-70). -/
def hexVal (c : Char) : Option ℕ :=
  let n := c.toNat
  if 48 ≤ n ∧ n ≤ 57 then some (n - 48)
  else if 97 ≤ n ∧ n ≤ 102 then some (n - 87)
  else if 65 ≤ n ∧ n ≤ 70 then some (n - 55)
  else none

/-- The character a single-letter JSON escape denotes (`\uXXXX` handled
separately). -/
def escChar (e : Char) : Option Char :=
  if e = '"' || e = '\\' || e = '/' then some e
  else if e = 'b' then some (Char.ofNat 8)
  else if e = 'f' then some (Char.ofNat 12)
  else if e = 'n' then some (Char.ofNat 10)
  else if e = 'r' then some (Char.ofNat 13)
  else if e = 't' then some (Char.ofNat 9)
  else none

/-- Body of a JSON string after the opening quote (strict mode: raw
control characters are rejected). -/
def parseStrAux : ℕ → List Char → List Char → Option (String × List Char)
  | 0, _, _ => none
  | _ + 1, _, [] => none
  | fuel + 1, acc, c :: rest =>
    if c = '"' then some (String.mk acc.reverse, rest)
    else if c = '\\' then
      match rest with
      | [] => none
      | e :: rest2 =>
        if e = 'u' then
          match rest2 with
          | h1 :: h2 :: h3 :: h4 :: rest3 =>
            match hexVal h1, hexVal h2, hexVal h3, hexVal h4 with
            | some a, some b, some c2, some d =>
              parseStrAux fuel
                (Char.ofNat (256 * (16 * a + b) + 16 * c2 + d) :: acc) rest3
            | _, _, _, _ => none
          | _ => none
        else
          match escChar e with
          | some ch => parseStrAux fuel (ch :: acc) rest2
          | none => none
    else if c.toNat < 32 then none
    else parseStrAux fuel (c :: acc) rest

/-- A JSON number (`-? (0 | [1-9][0-9]*) (. [0-9]+)? ([eE][+-]?[0-9]+)?`). -/
def parseJsonNumber (l : List Char) : Option (ℚ × List Char) :=
  let (neg, l1) := match l with
    | '-' :: r => (true, r)
    | _ => (false, l)
  match l1 with
  | [] => none
  | c :: _ =>
    if !c.isDigit then none
    else
      let (ip, l2) := spanDigits l1
      if 1 < ip.length && ip.headI = '0' then none
      else
        let (fp, l3, fracOk) := match l2 with
          | '.' :: r =>
            let (ds, r2) := spanDigits r
            (ds, r2, !ds.isEmpty)
          | _ => ([], l2, true)
        if !fracOk then none
        else
          let mant : ℚ := (digitsVal ip : ℚ) + (digitsVal fp : ℚ) / (10 : ℚ) ^ fp.length
          let signed : ℚ := if neg then -mant else mant
          match l3 with
          | e :: r =>
            if e = 'e' || e = 'E' then
              let (edown, r2) := match r with
                | '-' :: r3 => (true, r3)
                | '+' :: r3 => (false, r3)
                | _ => (false, r)
              let (eds, r3) := spanDigits r2
              if eds.isEmpty then none
              else
                let mag : ℚ := (10 : ℚ) ^ digitsVal eds
                some ((if edown then signed / mag else signed * mag), r3)
            else some (signed, l3)
          | [] => some (signed, l3)

mutual

/-- One JSON value; fuel bounds the nesting depth (every recursive call
consumes at least one input character first). -/
def parseVal : ℕ → List Char → Option (Json × List Char)
  | 0, _ => none
  | _ + 1, 't' :: r =>
    if ['r', 'u', 'e'].isPrefixOf r then some (.bool true, r.drop 3) else none
  | _ + 1, 'f' :: r =>
    if ['a', 'l', 's', 'e'].isPrefixOf r then some (.bool false, r.drop 4) else none
  | _ + 1, 'n' :: r =>
    if ['u', 'l', 'l'].isPrefixOf r then some (.null, r.drop 3) else none
  | _ + 1, '"' :: r => (parseStrAux (r.length + 1) [] r).map (fun p => (.str p.1, p.2))
  | fuel + 1, c :: r =>
    if c = lbrace then
      match jWs r with
      | [] => none
      | c2 :: r2 => if c2 = rbrace then some (.obj [], r2) else parseObjItems fuel (c2 :: r2) []
    else if c = '[' then
      match jWs r with
      | [] => none
      | c2 :: r2 => if c2 = ']' then some (.arr [], r2) else parseArrItems fuel (c2 :: r2) []
    else (parseJsonNumber (c :: r)).map (fun p => (.num p.1, p.2))
  | _ + 1, [] => none

/-- Members of a non-empty JSON object (duplicate keys keep the first
position and the last value, like a Python dict). -/
def parseObjItems : ℕ → List Char → JObj → Option (Json × List Char)
  | 0, _, _ => none
  | fuel + 1, '"' :: r, acc =>
    match parseStrAux (r.length + 1) [] r with
    | none => none
    | some (k, r2) =>
      match jWs r2 with
      | ':' :: r3 =>
        match parseVal fuel (jWs r3) with
        | none => none
        | some (v, r4) =>
          let acc2 := dictSet acc k v
          match jWs r4 with
          | [] => none
          | c :: r5 =>
            if c = rbrace then some (.obj acc2, r5)
            else if c = ',' then parseObjItems fuel (jWs r5) acc2
            else none
      | _ => none
  | _ + 1, _, _ => none

/-- Items of a non-empty JSON array. -/
def parseArrItems : ℕ → List Char → List Json → Option (Json × List Char)
  | 0, _, _ => none
  | fuel + 1, l, acc =>
    match parseVal fuel l with
    | none => none
    | some (v, r) =>
      match jWs r with
      | [] => none
      | c :: r2 =>
        if c = ']' then some (.arr (acc ++ [v]).reverse.reverse, r2)
        else if c = ',' then parseArrItems fuel (jWs r2) (acc ++ [v])
        else none

end

/-- `json.loads`: parse a complete JSON document (trailing whitespace
allowed, nothing else). -/
def jsonLoads (l : List Char) : Option Json :=
  match parseVal (l.length + 1) (jWs l) with
  | some (v, rest) => if jWs rest = [] then some v else none
  | none => none

/-! ## Tolerant answer parsing

`ask_model.parse_extractor_output` (ask_model.py lines 34-54) and the
judge-output cleanup in `score_answer.call_judge_llm` (score_answer.py
lines 82-98) share the same algorithm and differ only in the error text;
`tolerantParse` embeds it once. -/

/-- Python `raw.index(c)`. -/
def idxOf (c : Char) (l : List Char) : Option ℕ :=
  l.findIdx? (fun x => x = c)

/-- Python `raw.rindex(c)`. -/
def ridxOf (c : Char) (l : List Char) : Option ℕ :=
  (l.reverse.findIdx? (fun x => x = c)).map (fun i => l.length - 1 - i)

/-- Python `raw[s : e + 1]`. -/
def sliceIncl (l : List Char) (s e : ℕ) : List Char :=
  (l.drop s).take (e + 1 - s)

/-- The fence-cleanup step: `raw.strip()`, then, if the text starts with a
triple backtick, `raw.strip` of backticks, `.replace("json", "")`,
`.strip()`. -/
def fenceClean (l : List Char) : List Char :=
  let raw := pyStrip l
  if startsTicks raw then pyStrip (removeJson (stripTicks raw)) else raw

/-- The shared tolerant JSON extraction: fence cleanup, direct parse,
then the first-`{`-to-last-`}` substring, else an error carrying the
(cleaned) raw text. -/
def tolerantParse (errPre : String) (l : List Char) : Except String Json :=
  let raw := fenceClean l
  match jsonLoads raw with
  | some v => .ok v
  | none =>
    match idxOf lbrace raw, ridxOf rbrace raw with
    | some s, some e =>
      match jsonLoads (sliceIncl raw s e) with
      | some v => .ok v
      | none => .error (errPre ++ String.mk raw)
    | _, _ => .error (errPre ++ String.mk raw)

/-- `parse_extractor_output` (ask_model.py lines 34-54). -/
def parse_extractor_output (raw : List Char) : Except String Json :=
  tolerantParse "Extractor returned malformed JSON:\n\n" raw

/-- The judge-reply parsing of `call_judge_llm` (score_answer.py lines
82-98); the received content is `.strip()`ed first, which `tolerantParse`
already performs. -/
def judgeReplyParse (raw : List Char) : Except String Json :=
  tolerantParse "Judge returned malformed JSON:\n\n" raw

/-! ## `score_answer.py` -/

/-- The strict judge allow-list `JUDGE_MODELS` (score_answer.py lines
16-19). -/
def JUDGE_MODELS : List String := ["deepseek/deepseek-v3.2", "xai/grok-4.1"]

/-- One rendering of the Python error text
`f"Judge model '{model}' is not supported. Allowed: {JUDGE_MODELS}"`
(the set repr's element order is a Python implementation detail; no claim
inspects this text beyond it being the raised message). -/
def judgeNotSupportedMsg (model : String) : String :=
  "Judge model '" ++ model ++ "' is not supported. Allowed: " ++
    "\x7b'deepseek/deepseek-v3.2', 'xai/grok-4.1'\x7d"

/-- Oracle for the OpenRouter HTTP POST inside `call_judge_llm`: given
(model, system prompt, user prompt), yields the reply content (already
`.strip()`ed at the reception site) or a network/HTTP exception text. -/
def NetOracle : Type := String → String → String → Except String (List Char)

/-- `call_judge_llm` (score_answer.py lines 50-98): missing API key check,
strict judge allow-list check — both before the HTTP request — then the
request and the tolerant parse of the reply. -/
def call_judge_llm (apiKey : Option String) (net : NetOracle)
    (system_prompt user_prompt model : String) : Except String Json :=
  match apiKey with
  | none => .error "Missing OPENROUTER_API_KEY in .env"
  | some _ =>
    if model ∈ JUDGE_MODELS then
      match net model system_prompt user_prompt with
      | .ok raw => judgeReplyParse raw
      | .error e => .error e
    else .error (judgeNotSupportedMsg model)

/-- Python `str.upper()` (ASCII, as used on benchmark letters). -/
def pyUpper (s : String) : String := String.mk (s.data.map Char.toUpper)

/-- Python `str()` of a parsed JSON value, used only to fill the prompt
template.  The rendered text is consumed exclusively by the judge oracle,
so the exact rendering of containers/numbers is immaterial to every
claim; strings pass through unchanged exactly as in Python. -/
def pyStrJ : Json → String
  | .str s => s
  | .null => "None"
  | .bool b => if b then "True" else "False"
  | .num q => toString q
  | .arr _ => "[...]"
  | .obj _ => "\x7b...\x7d"

/-- Python `s.replace(pat, rep)` (leftmost, non-overlapping); fuel is the
input length, enough since every step consumes at least one character. -/
def replaceAllAux (pat rep : List Char) : ℕ → List Char → List Char
  | 0, l => l
  | _ + 1, [] => []
  | fuel + 1, c :: cs =>
    if !pat.isEmpty && pat.isPrefixOf (c :: cs) then
      rep ++ replaceAllAux pat rep fuel ((c :: cs).drop pat.length)
    else c :: replaceAllAux pat rep fuel cs

/-- Python `s.replace(pat, rep)` on strings. -/
def strReplace (s pat rep : String) : String :=
  String.mk (replaceAllAux pat.data rep.data s.data.length s.data)

/-- The five placeholder substitutions of `score_answer` (score_answer.py
lines 117-125). -/
def buildUserPrompt (tmpl : String) (ground_truth_obj : JObj)
    (gt_answer gt_rationale model_answer model_rationale : Json) : String :=
  strReplace
    (strReplace
      (strReplace
        (strReplace
          (strReplace tmpl "\x7b\x7bQUESTION\x7d\x7d"
            (pyStrJ (jgetD ground_truth_obj "question" (.str ""))))
          "\x7b\x7bGROUND_TRUTH_ANSWER\x7d\x7d" (pyStrJ gt_answer))
        "\x7b\x7bGROUND_TRUTH_RATIONALE\x7d\x7d" (pyStrJ gt_rationale))
      "\x7b\x7bMODEL_ANSWER\x7d\x7d" (pyStrJ model_answer))
    "\x7b\x7bMODEL_RATIONALE\x7d\x7d" (pyStrJ model_rationale)

/-- The normalization of the judge reply performed by `score_answer`
(score_answer.py lines 141-162): `is_correct`/`has_value` by truthiness,
`question_score` from the judge's value when float-coercible (Python's
`is None` test and the `float()` `try/except` collapse to one
`Option`-valued coercion: a present `null` fails `float()` too), else
derived from `is_correct`; the returned record. -/
def score_answer_result (judge_result : JObj) : JObj :=
  let is_correct := truthy (jgetD judge_result "is_correct" .null)
  let has_value := truthy (jgetD judge_result "has_value" .null)
  let error_type := jgetD judge_result "error_type" .null
  let judge_reasoning :=
    jgetD judge_result "judge_reasoning" (jgetD judge_result "justification" (.str ""))
  let question_score : ℚ :=
    (pyFloat (jgetD judge_result "question_score" .null)).getD
      (if is_correct then 1 else 0)
  [("correctness_score", .num question_score),
   ("correctness_justification", judge_reasoning),
   ("rationale_score", .num (if is_correct then 1 else 0)),
   ("rationale_justification", if truthy error_type then error_type else judge_reasoning),
   ("is_correct", .bool is_correct),
   ("has_value", .bool has_value),
   ("error_type", error_type),
   ("judge_reasoning", judge_reasoning),
   ("question_score", .num question_score)]

/-- `score_answer` (score_answer.py lines 104-162).  The two prompt-file
contents are the import-time `BENCHMARK_PROMPTS` dict (external files);
`model_answer_obj` is a `Json` because the precomputed-answers caller can
pass a non-dict, on which Python's `.get` raises `AttributeError` (after
the benchmark-type check, before the judge call). -/
def score_answer (apiKey : Option String) (net : NetOracle)
    (promptA promptB : String) (model_answer_obj : Json)
    (ground_truth_obj : JObj) (judge_model benchmark_type : String) :
    Except String JObj :=
  let bt := pyUpper benchmark_type
  let tmpl? : Option String :=
    if bt = "A" then some promptA else if bt = "B" then some promptB else none
  match tmpl? with
  | none =>
    .error ("Unknown benchmark type '" ++ bt ++ "'. Expected one of ['A', 'B']")
  | some tmpl =>
    let gt_answer := jgetD ground_truth_obj "ground_truth_answer"
      (jgetD ground_truth_obj "answer" (.str ""))
    let gt_rationale := jgetD ground_truth_obj "rationale" (.str "")
    match model_answer_obj with
    | .obj maObj =>
      let model_answer := jgetD maObj "answer" (.str "")
      let model_rationale := jgetD maObj "rationale" (.str "")
      let user_prompt :=
        buildUserPrompt tmpl ground_truth_obj gt_answer gt_rationale model_answer model_rationale
      match call_judge_llm apiKey net "You are an evaluation judge." user_prompt judge_model with
      | .error e => .error e
      | .ok (.obj jr) => .ok (score_answer_result jr)
      | .ok _ => .error "AttributeError: judge reply JSON is not an object"
    | _ => .error "AttributeError: model answer is not an object"

/-! ## `evaluation_pipeline.py` -/

/-- One evaluation result row as appended by the loops (save/load of the
JSONL file is plain persistence and is not re-modelled). -/
structure ResultRow where
  question : String
  model_answer : Json
  scores : JObj
  metadata : JObj
deriving DecidableEq

/-- A row as it appears to `calc_scores` after the JSONL round trip
(the dict literal of evaluation_pipeline.py lines 127-139 / 148-166). -/
def ResultRow.toEntry (r : ResultRow) : JObj :=
  [("question", .str r.question), ("model_answer", r.model_answer),
   ("scores", .obj r.scores), ("metadata", .obj r.metadata)]

/-- `entry["question"].strip()` as used to key the ground-truth map
(line 85) and to open each loop iteration (line 94): `some` of the
trimmed text when `"question"` maps to a string, else `none` — a missing
key (`KeyError`) or non-string (`AttributeError` on `.strip`) is raised
outside the per-question `try` and is fatal to the whole run. -/
def questionKey (entry : JObj) : Option String :=
  match dictGet entry "question" with
  | some (.str s) => some (String.mk (pyStrip s.data))
  | _ => none

/-- The ground-truth map builder
`{entry["question"].strip(): entry for entry in ground_truth_entries}`
(evaluation_pipeline.py line 85, line 221): a dict comprehension, so a
later entry with the same trimmed question overwrites an earlier one. -/
def gtMapAux : List (String × JObj) → List JObj → Option (List (String × JObj))
  | m, [] => some m
  | m, e :: es =>
    match questionKey e with
    | some k => gtMapAux (dictSet m k e) es
    | none => none

/-- The ground-truth map of a list of ground-truth entries. -/
def gtMapOf (entries : List JObj) : Option (List (String × JObj)) :=
  gtMapAux [] entries

/-- `str(KeyError(f"Missing ground truth for question:\n{q}"))`.  (Python's
`str` of a `KeyError` is the `repr` of its argument — quoted, with the
newline escaped; the exact rendering of the text is immaterial to every
claim, which only propagate it.) -/
def keyErrorMsg (q : String) : String :=
  "'Missing ground truth for question:\n" ++ q ++ "'"

/-- The zeroed fallback scores dict of the per-question `except` handlers
(evaluation_pipeline.py lines 151-156 and 302-307). -/
def fallbackScores (e : String) : JObj :=
  [("correctness_score", .num 0),
   ("correctness_justification", .str ("Error: " ++ e)),
   ("rationale_score", .num 0),
   ("rationale_justification", .str ("Error: " ++ e))]

/-- Success-row metadata of `evaluate_document` (lines 131-138). -/
def successMeta (doc em jm bk : String) (category : Json) (ts : String) : JObj :=
  [("document", .str doc), ("extractor_model", .str em),
   ("judge_model", .str jm), ("benchmark", .str bk),
   ("category", category), ("timestamp", .str ts)]

/-- Fallback-row metadata of `evaluate_document` (lines 157-165). -/
def errorMeta (doc em jm bk : String) (category : Json) (e ts : String) : JObj :=
  [("document", .str doc), ("extractor_model", .str em),
   ("judge_model", .str jm), ("benchmark", .str bk),
   ("category", category), ("error", .str e), ("timestamp", .str ts)]

/-- The body of the per-question `try` of `evaluate_document` (lines
99-122): ground-truth lookup, extractor call, scorer call.  `ask` is the
`ask_model` collaborator (it validates the model allow-list, performs the
HTTP call and enforces the `{answer, rationale}` schema, so on success it
yields a dict), `scoreFn` the `score_answer` collaborator. -/
def evalCore (gt_map : List (String × JObj)) (ask : String → Except String JObj)
    (scoreFn : Json → JObj → Except String JObj) (question_text : String) :
    Except String (JObj × JObj) :=
  match dictGet gt_map question_text with
  | none => .error (keyErrorMsg question_text)
  | some gt =>
    match ask question_text with
    | .error e => .error e
    | .ok model_answer_obj =>
      match scoreFn (.obj model_answer_obj) gt with
      | .error e => .error e
      | .ok score_obj => .ok (model_answer_obj, score_obj)

/-- One iteration of the `evaluate_document` loop (lines 93-168): the
`try` body on success appends the scored row, any exception is caught and
appends the zeroed fallback row. -/
def evalOne (gt_map : List (String × JObj)) (ask : String → Except String JObj)
    (scoreFn : Json → JObj → Except String JObj)
    (doc em jm bk ts : String) (q : JObj) (question_text : String) : ResultRow :=
  let category := jgetD q "category" (.str "Uncategorized")
  match evalCore gt_map ask scoreFn question_text with
  | .ok (ans, score_obj) =>
    ⟨question_text, .obj ans, score_obj, successMeta doc em jm bk category ts⟩
  | .error e =>
    ⟨question_text, .null, fallbackScores e, errorMeta doc em jm bk category e ts⟩

/-- Exception-propagating list traversal (a Python `for` loop in which an
uncaught exception aborts the whole iteration). -/
def mapME {α β : Type} (f : α → Except String β) : List α → Except String (List β)
  | [] => .ok []
  | a :: l =>
    match f a with
    | .error e => .error e
    | .ok b =>
      match mapME f l with
      | .error e => .error e
      | .ok bs => .ok (b :: bs)

/-- The main evaluation loop of `evaluate_document` (lines 93-168) over
already-loaded question entries; `q["question"].strip()` (line 94) sits
outside the `try`, so a question entry without a string question text
aborts the run. -/
def evaluate_document_loop (gt_map : List (String × JObj))
    (ask : String → Except String JObj)
    (scoreFn : Json → JObj → Except String JObj)
    (doc em jm bk ts : String) (questions : List JObj) :
    Except String (List ResultRow) :=
  mapME
    (fun q =>
      match questionKey q with
      | some qt => .ok (evalOne gt_map ask scoreFn doc em jm bk ts q qt)
      | none => .error "KeyError: 'question'")
    questions

/-- `evaluate_document` (lines 34-179) after the fatal input-file loading:
builds the ground-truth map, runs the loop.  (Path construction, printing
and the final `save_jsonl` are I/O glue.) -/
def evaluate_document (ground_truth_entries questions : List JObj)
    (ask : String → Except String JObj)
    (scoreFn : Json → JObj → Except String JObj)
    (doc em jm bk ts : String) : Except String (List ResultRow) :=
  match gtMapOf ground_truth_entries with
  | some gt_map => evaluate_document_loop gt_map ask scoreFn doc em jm bk ts questions
  | none => .error "KeyError: 'question'"

/-- The `try` body of `evaluate_precomputed_answers` (lines 246-268).  The
error payload carries the `category` local at raise time (`None` before
the ground-truth lookup succeeds, the ground-truth category after). -/
def precompCore (gt_map : List (String × JObj))
    (scoreFn : Json → JObj → Except String JObj) (entry : JObj)
    (question_text : String) : Except (String × Json) (Json × JObj × Json) :=
  if question_text = "" then
    .error ("Missing question text in answers file.", .null)
  else
    match dictGet gt_map question_text with
    | none => .error (keyErrorMsg question_text, .null)
    | some gt_entry =>
      let category := jgetD gt_entry "category" (.str "Uncategorized")
      let model_answer_obj :=
        match jgetD entry "model_answer" .null with
        | .null =>
          Json.obj [("answer", jgetD entry "answer" (.str "")),
                    ("rationale", jgetD entry "rationale" (.str ""))]
        | v => v
      match scoreFn model_answer_obj gt_entry with
      | .ok s => .ok (model_answer_obj, s, category)
      | .error e => .error (e, category)

/-- The fallback category of the precomputed loop's `except` handler
(lines 293-297): the entry's metadata category when the metadata dict is
truthy, else "Uncategorized".  (A truthy non-dict metadata would raise
inside the handler in Python — outside the model, no claim touches it.) -/
def precompFallbackCat (entry : JObj) : Json :=
  match jgetD entry "metadata" .null with
  | .obj o => if !o.isEmpty then dictGetD o "category" (.str "Uncategorized")
              else .str "Uncategorized"
  | _ => .str "Uncategorized"

/-- One iteration of the `evaluate_precomputed_answers` loop (lines
241-319). -/
def precompRow (gt_map : List (String × JObj))
    (scoreFn : Json → JObj → Except String JObj)
    (doc jm src bk ts : String) (entry : JObj) : ResultRow :=
  let question_text := String.mk (pyStrip (pyStrJ (jgetD entry "question" (.str ""))).data)
  match precompCore gt_map scoreFn entry question_text with
  | .ok (ma, score_obj, category) =>
    let metadata0 := (jgetD entry "metadata" (.obj [])).asObjD
    let md :=
      dictSet
        (dictSet
          (dictSet
            (dictSet
              (dictSet (dictSet metadata0 "document" (.str doc))
                "judge_model" (.str jm))
              "source_answers_file" (.str src))
            "benchmark" (.str bk))
          "category" category)
        "timestamp" (.str ts)
    ⟨question_text, ma, score_obj, md⟩
  | .error (e, category) =>
    let err_category := if truthy category then category else precompFallbackCat entry
    ⟨question_text, jgetD entry "model_answer" .null, fallbackScores e,
     [("document", .str doc), ("judge_model", .str jm),
      ("source_answers_file", .str src), ("benchmark", .str bk),
      ("category", err_category), ("error", .str e), ("timestamp", .str ts)]⟩

/-- The judge-only loop of `evaluate_precomputed_answers` (lines 241-319):
total — every per-entry exception is caught, yielding one row per entry. -/
def evaluate_precomputed_loop (gt_map : List (String × JObj))
    (scoreFn : Json → JObj → Except String JObj)
    (doc jm src bk ts : String) (entries : List JObj) : List ResultRow :=
  entries.map (precompRow gt_map scoreFn doc jm src bk ts)

/-! ## `calc_scores.py` -/

/-- `os.path.basename`. -/
def pyBasename (l : List Char) : List Char :=
  (l.reverse.takeWhile (fun c => c ≠ '/')).reverse

/-- Does `re.search(r"benchmark_([ab])_(.+?)\.jsonl$", filename, re.IGNORECASE)`
match starting at position `i`?  The `$` anchor pins `.jsonl` to the end of
the string, so the lazy group is forced to span positions `i+12` to
`n-6`; it must be non-empty and (being `.`) contain no newline. -/
def fmCheckAt (l : List Char) (i : ℕ) : Bool :=
  let n := l.length
  ((l.drop i).take 10).map Char.toLower = "benchmark_".data &&
  (match (l.drop (i + 10)).take 2 with
   | [c, u] => (c.toLower = 'a' || c.toLower = 'b') && u = '_'
   | _ => false) &&
  decide (i + 19 ≤ n) &&
  (l.drop (n - 6)).map Char.toLower = ".jsonl".data &&
  ((l.drop (i + 12)).take (n - 6 - (i + 12))).all (fun c => c ≠ '\n')

/-- `re.search` scans left to right: the leftmost start position at which
the whole pattern matches. -/
def fmFind (l : List Char) : Option ℕ :=
  (List.range l.length).find? (fmCheckAt l)

/-- The filename pattern of `load_results` (calc_scores.py lines 20-27):
`some (benchmark_letter.upper(), model_name)` on a match (`group(1)`
uppercased as in the source; `group(2)` in original case), else `none`. -/
def filenameMatch (l : List Char) : Option (String × String) :=
  match fmFind l with
  | none => none
  | some i =>
    let n := l.length
    some (String.mk (((l.drop (i + 10)).take 1).map Char.toUpper),
          String.mk ((l.drop (i + 12)).take (n - 6 - (i + 12))))

/-- The per-entry metadata rewrite of `load_results` (calc_scores.py lines
28-34): ensure a metadata dict, `setdefault` the benchmark derived from
the filename (`None` when the pattern does not match), unconditionally
assign the derived extractor model name (`"unknown_model"` when the
pattern does not match).  (A present non-dict `metadata` value would make
Python's `.setdefault` raise — outside the model, no claim touches it.) -/
def load_results_entry (filename : List Char) (entry : JObj) : JObj :=
  let m := filenameMatch filename
  let benchmark_from_file : Json :=
    match m with
    | some (b, _) => .str b
    | none => .null
  let model_name : String :=
    match m with
    | some (_, mn) => mn
    | none => "unknown_model"
  let meta0 : JObj := (jgetD entry "metadata" (.obj [])).asObjD
  let meta1 := dictSetdefault meta0 "benchmark" benchmark_from_file
  let meta2 := dictSet meta1 "extractor_model" (.str model_name)
  dictSet entry "metadata" (.obj meta2)

/-- `load_results` (calc_scores.py lines 9-35) over already-read files,
given as (path, parsed JSONL lines) pairs. -/
def load_results (files : List (List Char × List JObj)) : List JObj :=
  (files.map (fun f => f.2.map (load_results_entry (pyBasename f.1)))).flatten

/-- `extract_question_score` (calc_scores.py lines 38-44): the
`question_score` when the key is present (raising — `.error` — when
`float()` does), else `correctness_score` likewise, else `0.0`.  (The
exact `TypeError`/`ValueError` message text is immaterial.) -/
def extract_question_score (entry : JObj) : Except String ℚ :=
  let scores := (jgetD entry "scores" (.obj [])).asObjD
  match dictGet scores "question_score" with
  | some v =>
    match pyFloat v with
    | some q => .ok q
    | none => .error "float() raised on question_score"
  | none =>
    match dictGet scores "correctness_score" with
    | some v =>
      match pyFloat v with
      | some q => .ok q
      | none => .error "float() raised on correctness_score"
    | none => .ok 0

/-- The grouping key `(model, doc, benchmark)` of `aggregate`
(calc_scores.py lines 52-56): Python values, so `Json` components (the
benchmark can be `None` after `load_results`). -/
abbrev GroupKey := Json × Json × Json

/-- The metadata reads of the `aggregate` loop (lines 52-57). -/
def entryGroupKey (entry : JObj) : GroupKey :=
  let meta := (jgetD entry "metadata" (.obj [])).asObjD
  (jgetD meta "extractor_model" (.str "unknown_model"),
   jgetD meta "document" (.str "unknown_document"),
   jgetD meta "benchmark" (.str "unknown_benchmark"))

/-- The category read of the `aggregate` loop (line 57). -/
def entryCategory (entry : JObj) : Json :=
  jgetD ((jgetD entry "metadata" (.obj [])).asObjD) "category" (.str "Uncategorized")

/-- The body of `aggregate`'s first loop (lines 52-61): one
`(group key, category, score)` triple per entry, the score extraction
propagating its exception out of `aggregate`. -/
def collectTriples (entries : List JObj) : Except String (List (GroupKey × Json × ℚ)) :=
  mapME
    (fun e =>
      match extract_question_score e with
      | .ok s => .ok (entryGroupKey e, entryCategory e, s)
      | .error err => .error err)
    entries

/-- `grouped[(model, doc, benchmark)][category].append(score)` on the
nested `defaultdict` (line 61). -/
def groupAdd (g : List (GroupKey × List (Json × List ℚ))) (t : GroupKey × Json × ℚ) :
    List (GroupKey × List (Json × List ℚ)) :=
  dictUpd g t.1 (fun cm => dictUpd cm t.2.1 (fun vs => vs ++ [t.2.2]) []) []

/-- The grouped scores of `aggregate` after its first loop. -/
def groupedOf (ts : List (GroupKey × Json × ℚ)) :
    List (GroupKey × List (Json × List ℚ)) :=
  ts.foldl groupAdd []

/-- `sum(values) / len(values)`. -/
def listMean (vs : List ℚ) : ℚ := vs.sum / vs.length

/-- One entry of `category_scores` (calc_scores.py lines 67-70): skipped
when the bucket is empty, else the bucket's mean. -/
def catScoreEntry (p : Json × List ℚ) : Option (Json × ℚ) :=
  if p.2.isEmpty then none else some (p.1, listMean p.2)

/-- The per-group summary of `aggregate`'s second loop (lines 64-82): the
per-category means and the flat mean over all of the group's scores. -/
def summaryFor (g : List (GroupKey × List (Json × List ℚ))) (k : GroupKey) :
    List (Json × ℚ) × ℚ :=
  match dictGet g k with
  | none => ([], 0)
  | some cm =>
    let category_scores := cm.filterMap catScoreEntry
    let all_scores := (cm.filter (fun p => !p.2.isEmpty)).foldl (fun acc p => acc ++ p.2) []
    (category_scores, if !all_scores.isEmpty then listMean all_scores else 0)

/-- `model_summaries` (lines 63-85): one summary per group. -/
def model_summaries (ts : List (GroupKey × Json × ℚ)) :
    List (GroupKey × (List (Json × ℚ) × ℚ)) :=
  (groupedOf ts).map (fun p => (p.1, summaryFor (groupedOf ts) p.1))

/-- `benchmark_totals` (lines 66, 86): the groups' overall scores keyed by
benchmark. -/
def benchmark_totals (ts : List (GroupKey × Json × ℚ)) : List (Json × List ℚ) :=
  (groupedOf ts).foldl
    (fun m p => dictUpd m p.1.2.2 (fun l => l ++ [(summaryFor (groupedOf ts) p.1).2]) [])
    []

/-- `global_scores` (lines 89-95). -/
def global_scores (ts : List (GroupKey × Json × ℚ)) : List (Json × ℚ) :=
  (benchmark_totals ts).map
    (fun p => (p.1, if !p.2.isEmpty then listMean p.2 else 0))

/-- `model_benchmark_totals` / `model_benchmark_scores` (lines 67, 87,
97-102). -/
def model_benchmark_scores (ts : List (GroupKey × Json × ℚ)) :
    List ((Json × Json) × ℚ) :=
  ((groupedOf ts).foldl
    (fun m p =>
      dictUpd m (p.1.1, p.1.2.2) (fun l => l ++ [(summaryFor (groupedOf ts) p.1).2]) [])
    []).map (fun p => (p.1, if !p.2.isEmpty then listMean p.2 else 0))

/-- `aggregate` (calc_scores.py lines 47-103) up to its returned
summaries. -/
def aggregate (files : List (List Char × List JObj)) :
    Except String (List (GroupKey × (List (Json × ℚ) × ℚ)) × List (Json × ℚ) ×
      List ((Json × Json) × ℚ)) :=
  match collectTriples (load_results files) with
  | .error e => .error e
  | .ok ts => .ok (model_summaries ts, global_scores ts, model_benchmark_scores ts)

/-! ## Statement-side definitions used by the claim theorems -/

/-- The `question_score` as the specification describes it: the judge's
`question_score` coerced to a float when the key is present and the value
coercible, otherwise `1.0` if `is_correct` is truthy else `0.0` (spec-side
refinement definition, to be compared against `score_answer_result`). -/
def specQuestionScore (j : JObj) : ℚ :=
  match dictGet j "question_score" with
  | some v =>
    match pyFloat v with
    | some q => q
    | none => if truthy (jgetD j "is_correct" .null) then 1 else 0
  | none => if truthy (jgetD j "is_correct" .null) then 1 else 0

/-- Wrapping a text in code fences with the `json` language tag, as in the
claim: three backticks, the tag, a newline, the content, a newline, three
closing backticks. -/
def fenceWrapJson (s : List Char) : List Char :=
  [btick, btick, btick, 'j', 's', 'o', 'n', '\n'] ++ s ++ ['\n', btick, btick, btick]

/-- Every inner (per-category) dict reachable in the grouped structure
has unique keys. -/
def InnerNodup (g : List (GroupKey × List (Json × List ℚ))) : Prop :=
  ∀ p ∈ g, ((p.2.map Prod.fst).Nodup)

/-- The concatenation of all of a dict's per-category buckets. -/
def joinVals (g : List (GroupKey × List (Json × List ℚ))) (k : GroupKey) : List ℚ :=
  ((dictGetD g k []).map (fun p => p.2)).flatten

/-- The score `aggregate` records for an entry (total version; on the
rows the loops produce this is exactly `extract_question_score`). -/
def scoreOfD (e : JObj) : ℚ :=
  match extract_question_score e with
  | .ok q => q
  | .error _ => 0

/-- The concrete two-entry demonstration group of the claim: two triples
in the same `(model, doc, benchmark)` group and category, scoring `1.0`
and `0.0`. -/
def demoTriples : List (GroupKey × Json × ℚ) :=
  [((Json.str "m", Json.str "d", Json.str "A"), Json.str "c", 1),
   ((Json.str "m", Json.str "d", Json.str "A"), Json.str "c", 0)]

/-- The demonstration group key. -/
def demoKey : GroupKey := (Json.str "m", Json.str "d", Json.str "A")

/-! ## Dictionary lemmas -/

theorem dictGet_nil {κ α : Type} [DecidableEq κ] (k : κ) :
    dictGet ([] : List (κ × α)) k = none := rfl

theorem dictGet_cons {κ α : Type} [DecidableEq κ] (k0 : κ) (v0 : α) (m : List (κ × α))
    (k : κ) : dictGet ((k0, v0) :: m) k = if k0 = k then some v0 else dictGet m k := by
  by_cases h : k0 = k <;> simp [dictGet, List.find?, h]

theorem dictGet_append {κ α : Type} [DecidableEq κ] (m1 m2 : List (κ × α)) (k : κ) :
    dictGet (m1 ++ m2) k = (dictGet m1 k).orElse (fun _ => dictGet m2 k) := by
  induction m1 with
  | nil => simp [dictGet]
  | cons p rest ih =>
    obtain ⟨k0, v0⟩ := p
    by_cases h : k0 = k <;> simp [dictGet_cons, h, ih]

theorem dictGet_dictSet {κ α : Type} [DecidableEq κ] (m : List (κ × α)) (k : κ) (v : α)
    (k' : κ) : dictGet (dictSet m k v) k' = if k = k' then some v else dictGet m k' := by
  induction m with
  | nil => simp [dictSet, dictGet_cons, dictGet_nil]
  | cons p rest ih =>
    obtain ⟨k0, v0⟩ := p
    simp only [dictSet]
    by_cases h0 : k0 = k
    · subst h0
      simp only [if_pos rfl]
      by_cases h : k0 = k' <;> simp [h, dictGet_cons]
    · rw [if_neg h0, dictGet_cons, ih, dictGet_cons]
      by_cases h1 : k0 = k'
      · subst h1
        have h2 : k ≠ k0 := fun hc => h0 hc.symm
        simp [h2]
      · simp [h1]

theorem dictGet_dictUpd {κ α : Type} [DecidableEq κ] (m : List (κ × α)) (k : κ)
    (f : α → α) (d : α) (k' : κ) :
    dictGet (dictUpd m k f d) k' =
      if k = k' then some (f (dictGetD m k d)) else dictGet m k' := by
  induction m with
  | nil => simp [dictUpd, dictGet_cons, dictGet_nil, dictGetD]
  | cons p rest ih =>
    obtain ⟨k0, v0⟩ := p
    simp only [dictUpd]
    by_cases h0 : k0 = k
    · subst h0
      simp only [if_pos rfl]
      by_cases h : k0 = k' <;> simp [h, dictGet_cons, dictGetD]
    · rw [if_neg h0, dictGet_cons, ih, dictGet_cons]
      by_cases h1 : k0 = k'
      · subst h1
        have h2 : k ≠ k0 := fun hc => h0 hc.symm
        simp [h2]
      · by_cases h2 : k = k'
        · subst h2
          simp [h1, dictGetD, dictGet_cons, h0]
        · simp [h1, h2]

theorem dictGet_dictSetdefault {κ α : Type} [DecidableEq κ] (m : List (κ × α)) (k : κ)
    (v : α) (k' : κ) :
    dictGet (dictSetdefault m k v) k' =
      if k = k' then some (dictGetD m k v) else dictGet m k' := by
  unfold dictSetdefault
  cases hw : dictGet m k with
  | some w =>
    simp only [hw, Option.isSome_some, if_pos]
    by_cases h : k = k'
    · subst h
      simp [dictGetD, hw]
    · simp [h]
  | none =>
    simp only [hw, Option.isSome_none, Bool.false_eq_true, if_false, dictGet_append]
    by_cases h : k = k'
    · subst h
      simp [hw, dictGetD, dictGet_cons, dictGet_nil]
    · cases hg : dictGet m k' with
      | some w2 => simp [h, hg, Option.orElse]
      | none =>
        have hx : k ≠ k' := h
        simp [h, hg, Option.orElse, dictGet_cons, dictGet_nil, hx]

/-! ## `mapME` and ground-truth map lemmas -/

theorem mapME_ok_map {α β : Type} (f : α → Except String β) (g : α → β)
    (l : List α) (h : ∀ a ∈ l, f a = .ok (g a)) : mapME f l = .ok (l.map g) := by
  induction l with
  | nil => rfl
  | cons a rest ih =>
    have ha : f a = .ok (g a) := h a (by simp)
    have hr : mapME f rest = .ok (rest.map g) := ih (fun x hx => h x (by simp [hx]))
    simp [mapME, ha, hr]

theorem gtMapAux_lookup (es : List JObj) (m : List (String × JObj))
    (gm : List (String × JObj)) (k : String) (h : gtMapAux m es = some gm) :
    dictGet gm k =
      match es.reverse.find? (fun e => questionKey e = some k) with
      | some e => some e
      | none => dictGet m k := by
  induction es generalizing m with
  | nil =>
    simp only [gtMapAux, Option.some.injEq] at h
    subst h
    simp
  | cons e rest ih =>
    simp only [gtMapAux] at h
    cases hq : questionKey e with
    | none => simp [hq] at h
    | some ke =>
      rw [hq] at h
      have hrec := ih (dictSet m ke e) h
      rw [hrec]
      simp only [List.reverse_cons, List.find?_append]
      cases hf : rest.reverse.find? (fun e => questionKey e = some k) with
      | some w => simp
      | none =>
        simp only [Option.none_orElse]
        by_cases hk : ke = k
        · subst hk
          simp [List.find?, hq, dictGet_dictSet]
        · have hpe : (fun e => decide (questionKey e = some k)) e = false := by
            simp [hq, hk]
          simp [List.find?, hpe, dictGet_dictSet, hk]

/-- The characterization of the ground-truth map: lookup returns the
*last* ground-truth entry whose trimmed question text equals the key. -/
theorem gtMapOf_lookup (es : List JObj) (gm : List (String × JObj)) (k : String)
    (h : gtMapOf es = some gm) :
    dictGet gm k = es.reverse.find? (fun e => questionKey e = some k) := by
  have := gtMapAux_lookup es [] gm k h
  rw [this]
  cases es.reverse.find? (fun e => questionKey e = some k) <;> simp [dictGet_nil]

/-! ## C1: scorer normalization -/


theorem score_answer_result_question_score (j : JObj) :
    dictGet (score_answer_result j) "question_score" =
      some (.num (specQuestionScore j)) := by
  simp only [score_answer_result, dictGet_cons, specQuestionScore, jgetD, dictGetD]
  norm_num
  cases hv : dictGet j "question_score" with
  | none => simp [pyFloat]
  | some v => cases hpf : pyFloat v <;> simp [hpf]

theorem score_answer_result_correctness_score (j : JObj) :
    dictGet (score_answer_result j) "correctness_score" =
      some (.num (specQuestionScore j)) := by
  simp only [score_answer_result, dictGet_cons, specQuestionScore, jgetD, dictGetD]
  norm_num
  cases hv : dictGet j "question_score" with
  | none => simp [pyFloat]
  | some v => cases hpf : pyFloat v <;> simp [hpf]

theorem score_answer_result_rationale_score (j : JObj) :
    dictGet (score_answer_result j) "rationale_score" =
      some (.num (if truthy (jgetD j "is_correct" .null) then 1 else 0)) := by
  simp only [score_answer_result, dictGet_cons]
  simp

/-- C1: for every judge reply object, the record returned by
`score_answer` has `question_score` equal to the judge's value coerced to
float when present and coercible else `1.0`/`0.0` from the truthiness of
`is_correct`; `correctness_score` always equals that `question_score`; and
`rationale_score` is `1.0` iff `is_correct` is truthy, independently of
`question_score`.  In particular `{"is_correct": false, "question_score":
0.4}` yields `correctness_score == 0.4` with `rationale_score == 0.0`, and
`{"is_correct": true}` without a `question_score` yields `1.0` and
`1.0`. -/
theorem C1_scorer_normalization :
    (∀ j : JObj,
      dictGet (score_answer_result j) "question_score" =
        some (.num (specQuestionScore j)) ∧
      dictGet (score_answer_result j) "correctness_score" =
        some (.num (specQuestionScore j)) ∧
      dictGet (score_answer_result j) "rationale_score" =
        some (.num (if truthy (jgetD j "is_correct" .null) then 1 else 0))) ∧
    (dictGet (score_answer_result
        [("is_correct", .bool false), ("question_score", .num (2/5))])
        "correctness_score" = some (.num (2/5)) ∧
     dictGet (score_answer_result
        [("is_correct", .bool false), ("question_score", .num (2/5))])
        "rationale_score" = some (.num 0)) ∧
    (dictGet (score_answer_result [("is_correct", .bool true)])
        "correctness_score" = some (.num 1) ∧
     dictGet (score_answer_result [("is_correct", .bool true)])
        "rationale_score" = some (.num 1)) :=
  ⟨fun j => ⟨score_answer_result_question_score j,
    score_answer_result_correctness_score j,
    score_answer_result_rationale_score j⟩,
   ⟨rfl, rfl⟩, ⟨rfl, rfl⟩⟩

/-! ## C9: duplicate ground-truth questions -/

/-- C9: the ground-truth lookup map built by the evaluation pipeline
(line 85) maps each trimmed question text to the *last* ground-truth
entry with that trimmed text, so earlier duplicates are never used; in
particular two entries whose trimmed texts are both "Q" leave only the
second in the map. -/
theorem C9_gt_map_keeps_last_duplicate :
    (∀ (es : List JObj) (gm : List (String × JObj)) (k : String),
        gtMapOf es = some gm →
        dictGet gm k = es.reverse.find? (fun e => questionKey e = some k)) ∧
    gtMapOf [[("question", .str "Q"), ("answer", .str "first")],
             [("question", .str " Q "), ("answer", .str "second")]] =
      some [("Q", [("question", .str " Q "), ("answer", .str "second")])] :=
  ⟨gtMapOf_lookup, rfl⟩

/-- Witness for C9: the general lookup law applied to the concrete
duplicate pair. -/
theorem C9_gt_map_keeps_last_duplicate_witness :
    dictGet [("Q", [("question", .str " Q "), ("answer", .str "second")])] "Q" =
      ([[("question", .str "Q"), ("answer", .str "first")],
        [("question", .str " Q "), ("answer", .str "second")]] : List JObj).reverse.find?
        (fun e => questionKey e = some "Q") :=
  C9_gt_map_keeps_last_duplicate.1
    [[("question", .str "Q"), ("answer", .str "first")],
     [("question", .str " Q "), ("answer", .str "second")]]
    [("Q", [("question", .str " Q "), ("answer", .str "second")])] "Q" rfl

/-! ## C10: totality of `extract_question_score` -/

theorem toEntry_scores (r : ResultRow) :
    (jgetD r.toEntry "scores" (.obj [])).asObjD = r.scores := by
  simp [ResultRow.toEntry, jgetD, dictGetD, dictGet_cons, Json.asObjD]

theorem score_answer_result_extract (j : JObj) (r : ResultRow)
    (h : r.scores = score_answer_result j) :
    extract_question_score r.toEntry = .ok (specQuestionScore j) := by
  simp only [extract_question_score, toEntry_scores, h,
    score_answer_result_question_score, pyFloat]

/-- C10: `extract_question_score` is total on entries whose scores map
`question_score` (or, when that is absent, `correctness_score`) to a
float-coercible value; every row the scorer or the failure fallback
produces satisfies this; but a hand-written row with a non-coercible
`question_score` (here JSON `null`) makes it raise. -/
theorem C10_extract_question_score_totality :
    (∀ entry : JObj,
      (∀ v, dictGet ((jgetD entry "scores" (.obj [])).asObjD) "question_score" = some v →
        (pyFloat v).isSome) →
      (dictGet ((jgetD entry "scores" (.obj [])).asObjD) "question_score" = none →
        ∀ v, dictGet ((jgetD entry "scores" (.obj [])).asObjD) "correctness_score" = some v →
          (pyFloat v).isSome) →
      (extract_question_score entry).isOk) ∧
    (∀ (j : JObj) (r : ResultRow), r.scores = score_answer_result j →
      extract_question_score r.toEntry = .ok (specQuestionScore j)) ∧
    (∀ (r : ResultRow) (msg : String), r.scores = fallbackScores msg →
      extract_question_score r.toEntry = .ok 0) ∧
    (extract_question_score [("scores", .obj [("question_score", .null)])]).isOk = false := by
  refine ⟨?_, score_answer_result_extract, ?_, rfl⟩
  · intro entry h1 h2
    simp only [extract_question_score]
    cases hq : dictGet ((jgetD entry "scores" (.obj [])).asObjD) "question_score" with
    | some v =>
      have hv := h1 v hq
      cases hpf : pyFloat v with
      | some q => simp [hpf, Except.isOk, Except.toBool]
      | none => simp [hpf] at hv
    | none =>
      cases hc : dictGet ((jgetD entry "scores" (.obj [])).asObjD) "correctness_score" with
      | some v =>
        have hv := h2 hq v hc
        cases hpf : pyFloat v with
        | some q => simp [hpf, Except.isOk, Except.toBool]
        | none => simp [hpf] at hv
      | none => rfl
  · intro r msg h
    simp only [extract_question_score, toEntry_scores, h]
    simp [fallbackScores, dictGet_cons, dictGet_nil, pyFloat]

/-- Witness for C10: the totality conjunct applied to a concrete
well-scored entry. -/
theorem C10_extract_question_score_totality_witness :
    (extract_question_score [("scores", .obj [("question_score", .num 1)])]).isOk :=
  C10_extract_question_score_totality.1 [("scores", .obj [("question_score", .num 1)])]
    (by intro v hv; cases hv; rfl)
    (by intro hq; simp [jgetD, dictGetD, dictGet_cons, Json.asObjD] at hq)

/-! ## C2: per-question failure isolation -/

/-- C2: with every question entry well-formed, the evaluation loop
returns exactly one row per input question (so one question's failure
never aborts the batch), and whenever the ground-truth
lookup / extractor / scorer pipeline of a question raises, the appended
row is the zeroed fallback row: both scores `0.0`, both justifications
containing the error message, and `metadata.error` set to it. -/
theorem C2_failure_isolation :
    ∀ (gt_map : List (String × JObj)) (ask : String → Except String JObj)
      (scoreFn : Json → JObj → Except String JObj) (doc em jm bk ts : String)
      (questions : List JObj),
      (∀ q ∈ questions, (questionKey q).isSome) →
      (evaluate_document_loop gt_map ask scoreFn doc em jm bk ts questions =
        .ok (questions.map (fun q =>
          evalOne gt_map ask scoreFn doc em jm bk ts q ((questionKey q).getD "")))) ∧
      (∀ (q : JObj) (qt e : String),
        evalCore gt_map ask scoreFn qt = .error e →
        (evalOne gt_map ask scoreFn doc em jm bk ts q qt).scores = fallbackScores e ∧
        dictGet (evalOne gt_map ask scoreFn doc em jm bk ts q qt).scores
          "correctness_score" = some (.num 0) ∧
        dictGet (evalOne gt_map ask scoreFn doc em jm bk ts q qt).scores
          "rationale_score" = some (.num 0) ∧
        (∃ cj, dictGet (evalOne gt_map ask scoreFn doc em jm bk ts q qt).scores
            "correctness_justification" = some (.str cj) ∧ e.data <:+: cj.data) ∧
        (∃ rj, dictGet (evalOne gt_map ask scoreFn doc em jm bk ts q qt).scores
            "rationale_justification" = some (.str rj) ∧ e.data <:+: rj.data) ∧
        dictGet (evalOne gt_map ask scoreFn doc em jm bk ts q qt).metadata
          "error" = some (.str e)) := by
  intro gt_map ask scoreFn doc em jm bk ts questions hwf
  constructor
  · apply mapME_ok_map
    intro q hq
    obtain ⟨qt, hqt⟩ := Option.isSome_iff_exists.mp (hwf q hq)
    simp [hqt]
  · intro q qt e he
    have hinf : e.data <:+: ("Error: " ++ e).data := by
      rw [String.data_append]
      exact (List.suffix_append _ _).isInfix
    have hrow : evalOne gt_map ask scoreFn doc em jm bk ts q qt =
        ⟨qt, .null, fallbackScores e,
          errorMeta doc em jm bk (jgetD q "category" (.str "Uncategorized")) e ts⟩ := by
      simp [evalOne, he]
    rw [hrow]
    exact ⟨rfl, rfl, rfl, ⟨"Error: " ++ e, rfl, hinf⟩, ⟨"Error: " ++ e, rfl, hinf⟩, rfl⟩

/-- Witness for C2: a one-question batch whose extractor raises still
yields one (fallback) row. -/
theorem C2_failure_isolation_witness :
    (evaluate_document_loop [("q1", [("question", .str "q1")])]
      (fun _ => .error "boom") (fun _ _ => .error "unused")
      "d" "m" "j" "B" "t" [[("question", .str "q1")]] =
      .ok ([[("question", .str "q1")]].map (fun q =>
        evalOne [("q1", [("question", .str "q1")])] (fun _ => .error "boom")
          (fun _ _ => .error "unused") "d" "m" "j" "B" "t" q
          ((questionKey q).getD "")))) ∧
    dictGet (evalOne [("q1", [("question", .str "q1")])] (fun _ => .error "boom")
        (fun _ _ => .error "unused") "d" "m" "j" "B" "t"
        [("question", .str "q1")] "q1").metadata "error" = some (.str "boom") :=
  ⟨(C2_failure_isolation [("q1", [("question", .str "q1")])] (fun _ => .error "boom")
      (fun _ _ => .error "unused") "d" "m" "j" "B" "t" [[("question", .str "q1")]]
      (by intro q hq; simp at hq; subst hq; rfl)).1,
   ((C2_failure_isolation [("q1", [("question", .str "q1")])] (fun _ => .error "boom")
      (fun _ _ => .error "unused") "d" "m" "j" "B" "t" [[("question", .str "q1")]]
      (by intro q hq; simp at hq; subst hq; rfl)).2
      [("question", .str "q1")] "q1" "boom" rfl).2.2.2.2.2⟩

/-! ## C4: score fields of loop-produced rows -/

theorem fallback_extract (r : ResultRow) (msg : String)
    (h : r.scores = fallbackScores msg) :
    extract_question_score r.toEntry = .ok 0 := by
  simp only [extract_question_score, toEntry_scores, h]
  simp [fallbackScores, dictGet_cons, dictGet_nil, pyFloat]

theorem score_answer_ok_shape (apiKey : Option String) (net : NetOracle)
    (pA pB : String) (ma : Json) (gt : JObj) (jm bt : String) (s : JObj)
    (h : score_answer apiKey net pA pB ma gt jm bt = .ok s) :
    ∃ jr : JObj, s = score_answer_result jr := by
  simp only [score_answer] at h
  split at h
  · exact absurd h (by simp)
  · split at h
    · split at h
      · exact absurd h (by simp)
      · rename_i jr hcall
        exact ⟨jr, (Except.ok.inj h).symm⟩
      · exact absurd h (by simp)
    · exact absurd h (by simp)

theorem evalCore_ok_scores (gm : List (String × JObj))
    (ask : String → Except String JObj) (scFn : Json → JObj → Except String JObj)
    (qt : String) (p : JObj × JObj) (h : evalCore gm ask scFn qt = .ok p) :
    ∃ gt, scFn (.obj p.1) gt = .ok p.2 := by
  simp only [evalCore] at h
  split at h
  · exact absurd h (by simp)
  · rename_i gt hget
    split at h
    · exact absurd h (by simp)
    · rename_i ans hask
      split at h
      · exact absurd h (by simp)
      · rename_i sc hsc
        have hp : (ans, sc) = p := Except.ok.inj h
        exact ⟨gt, by rw [← hp]; exact hsc⟩

/-- Counterexample to C4 as stated: a row appended by the evaluation loop
(here: the fallback row for a question whose ground truth is missing) has
a scores dict with *no* `question_score` key at all, so not every
ScoreRecord score field is present on every loop-produced row. -/
theorem C4_counterexample :
    (evaluate_document_loop [] (fun _ => .error "x") (fun _ _ => .error "y")
        "doc" "em" "jm" "B" "ts" [[("question", .str "q1")]] =
      .ok [⟨"q1", .null, fallbackScores (keyErrorMsg "q1"),
            errorMeta "doc" "em" "jm" "B" (.str "Uncategorized") (keyErrorMsg "q1") "ts"⟩]) ∧
    dictGet (fallbackScores (keyErrorMsg "q1")) "question_score" = none :=
  ⟨rfl, rfl⟩

/-- C4 (amended): every row appended by the evaluation loop — scored or
fallback — carries numeric `correctness_score` and `rationale_score`
(0.0 on failure), and `extract_question_score` succeeds on it, so the
aggregator needs no null-handling for loop-produced rows; fallback rows
omit `question_score`, covered by the aggregator's `correctness_score`
fallback.  The same holds for the precomputed-answers loop. -/
theorem C4_loop_scores_present_numeric :
    ∀ (apiKey : Option String) (net : NetOracle) (pA pB : String)
      (gt_map : List (String × JObj)) (ask : String → Except String JObj)
      (doc em jm bk ts bt src : String) (q entr : JObj) (qt : String),
      ((∃ x, dictGet (evalOne gt_map ask
          (fun ma gt => score_answer apiKey net pA pB ma gt jm bt)
          doc em jm bk ts q qt).scores "correctness_score" = some (.num x)) ∧
       (∃ y, dictGet (evalOne gt_map ask
          (fun ma gt => score_answer apiKey net pA pB ma gt jm bt)
          doc em jm bk ts q qt).scores "rationale_score" = some (.num y)) ∧
       (extract_question_score (evalOne gt_map ask
          (fun ma gt => score_answer apiKey net pA pB ma gt jm bt)
          doc em jm bk ts q qt).toEntry).isOk) ∧
      ((∃ x, dictGet (precompRow gt_map
          (fun ma gt => score_answer apiKey net pA pB ma gt jm bt)
          doc jm src bk ts entr).scores "correctness_score" = some (.num x)) ∧
       (∃ y, dictGet (precompRow gt_map
          (fun ma gt => score_answer apiKey net pA pB ma gt jm bt)
          doc jm src bk ts entr).scores "rationale_score" = some (.num y)) ∧
       (extract_question_score (precompRow gt_map
          (fun ma gt => score_answer apiKey net pA pB ma gt jm bt)
          doc jm src bk ts entr).toEntry).isOk) := by
  intro apiKey net pA pB gt_map ask doc em jm bk ts bt src q entr qt
  constructor
  · cases hc : evalCore gt_map ask
      (fun ma gt => score_answer apiKey net pA pB ma gt jm bt) qt with
    | error e =>
      have hrow : evalOne gt_map ask
          (fun ma gt => score_answer apiKey net pA pB ma gt jm bt)
          doc em jm bk ts q qt =
          ⟨qt, .null, fallbackScores e,
            errorMeta doc em jm bk (jgetD q "category" (.str "Uncategorized")) e ts⟩ := by
        simp [evalOne, hc]
      rw [hrow]
      exact ⟨⟨0, rfl⟩, ⟨0, rfl⟩, by rw [fallback_extract _ e rfl]; rfl⟩
    | ok p =>
      have hrow : evalOne gt_map ask
          (fun ma gt => score_answer apiKey net pA pB ma gt jm bt)
          doc em jm bk ts q qt =
          ⟨qt, .obj p.1, p.2,
            successMeta doc em jm bk (jgetD q "category" (.str "Uncategorized")) ts⟩ := by
        simp [evalOne, hc]
      obtain ⟨gt, hsc⟩ := evalCore_ok_scores _ _ _ _ _ hc
      obtain ⟨jr, hjr⟩ := score_answer_ok_shape _ _ _ _ _ _ _ _ _ hsc
      rw [hrow]
      refine ⟨⟨specQuestionScore jr, ?_⟩, ⟨if truthy (jgetD jr "is_correct" .null) then 1 else 0, ?_⟩, ?_⟩
      · simpa [hjr] using score_answer_result_correctness_score jr
      · simpa [hjr] using score_answer_result_rationale_score jr
      · rw [score_answer_result_extract jr _ hjr]
        rfl
  · cases hc : precompCore gt_map
      (fun ma gt => score_answer apiKey net pA pB ma gt jm bt) entr
      (String.mk (pyStrip (pyStrJ (jgetD entr "question" (.str ""))).data)) with
    | error pe =>
      have hrow : precompRow gt_map
          (fun ma gt => score_answer apiKey net pA pB ma gt jm bt)
          doc jm src bk ts entr =
          ⟨String.mk (pyStrip (pyStrJ (jgetD entr "question" (.str ""))).data),
            jgetD entr "model_answer" .null, fallbackScores pe.1,
            [("document", .str doc), ("judge_model", .str jm),
             ("source_answers_file", .str src), ("benchmark", .str bk),
             ("category", if truthy pe.2 then pe.2 else precompFallbackCat entr),
             ("error", .str pe.1), ("timestamp", .str ts)]⟩ := by
        simp [precompRow, hc]
      rw [hrow]
      exact ⟨⟨0, rfl⟩, ⟨0, rfl⟩, by rw [fallback_extract _ pe.1 rfl]; rfl⟩
    | ok p =>
      obtain ⟨ma, s, category⟩ := p
      have hrow : precompRow gt_map
          (fun ma gt => score_answer apiKey net pA pB ma gt jm bt)
          doc jm src bk ts entr =
          ⟨String.mk (pyStrip (pyStrJ (jgetD entr "question" (.str ""))).data),
            ma, s,
            dictSet
              (dictSet
                (dictSet
                  (dictSet
                    (dictSet
                      (dictSet ((jgetD entr "metadata" (.obj [])).asObjD)
                        "document" (.str doc))
                      "judge_model" (.str jm))
                    "source_answers_file" (.str src))
                  "benchmark" (.str bk))
                "category" category)
              "timestamp" (.str ts)⟩ := by
        simp [precompRow, hc]
      have hs : ∃ jr : JObj, s = score_answer_result jr := by
        simp only [precompCore] at hc
        split at hc
        · exact absurd hc (by simp)
        · split at hc
          · exact absurd hc (by simp)
          · split at hc
            · rename_i s2 hs2
              have hinj := Except.ok.inj hc
              obtain ⟨jr, hjr⟩ := score_answer_ok_shape _ _ _ _ _ _ _ _ _ hs2
              have hs2eq : s2 = s := congrArg (fun t => t.2.1) hinj
              exact ⟨jr, by rw [← hs2eq]; exact hjr⟩
            · exact absurd hc (by simp)
      obtain ⟨jr, hjr⟩ := hs
      rw [hrow]
      refine ⟨⟨specQuestionScore jr, ?_⟩, ⟨if truthy (jgetD jr "is_correct" .null) then 1 else 0, ?_⟩, ?_⟩
      · simpa [hjr] using score_answer_result_correctness_score jr
      · simpa [hjr] using score_answer_result_rationale_score jr
      · rw [score_answer_result_extract jr _ hjr]
        rfl

/-! ## C6: disallowed judge model -/

theorem call_judge_llm_bad_model (k : String) (net : NetOracle) (sys usr model : String)
    (h : model ∉ JUDGE_MODELS) :
    call_judge_llm (some k) net sys usr model = .error (judgeNotSupportedMsg model) := by
  simp [call_judge_llm, h]

theorem score_answer_bad_judge (apiKey : Option String) (net : NetOracle) (pA pB : String)
    (ma : Json) (gt : JObj) (jm bt : String) (h : jm ∉ JUDGE_MODELS) :
    ∃ e, score_answer apiKey net pA pB ma gt jm bt = .error e := by
  simp only [score_answer]
  split
  · exact ⟨_, rfl⟩
  · split
    · cases apiKey with
      | none => exact ⟨"Missing OPENROUTER_API_KEY in .env", by simp [call_judge_llm]⟩
      | some k =>
        exact ⟨judgeNotSupportedMsg jm, by simp [call_judge_llm_bad_model k net _ _ jm h]⟩
    · exact ⟨_, rfl⟩

theorem evalCore_error_of_scorer_error (gm : List (String × JObj))
    (ask : String → Except String JObj) (scFn : Json → JObj → Except String JObj)
    (qt : String) (h : ∀ ma gt, ∃ e, scFn ma gt = .error e) :
    ∃ e, evalCore gm ask scFn qt = .error e := by
  simp only [evalCore]
  cases dictGet gm qt with
  | none => exact ⟨_, rfl⟩
  | some gt =>
    cases ask qt with
    | error e => exact ⟨e, rfl⟩
    | ok ans =>
      obtain ⟨e, he⟩ := h (.obj ans) gt
      exact ⟨e, by simp [he]⟩

/-- C6 (amended): a judge model outside the allow-list makes
`call_judge_llm` fail before its own network request — the result is a
`ValueError` independent of the network oracle — but inside the
evaluation loop this exception is caught by the per-question handler like
any other: each question yields a zero-score fallback row and the run
completes instead of aborting. -/
theorem C6_bad_judge_model :
    (∀ (k : String) (net net2 : NetOracle) (sys usr model : String),
      model ∉ JUDGE_MODELS →
      call_judge_llm (some k) net sys usr model = .error (judgeNotSupportedMsg model) ∧
      call_judge_llm (some k) net sys usr model =
        call_judge_llm (some k) net2 sys usr model) ∧
    (∀ (apiKey : Option String) (net : NetOracle) (pA pB : String)
       (gt_map : List (String × JObj)) (ask : String → Except String JObj)
       (doc em bk ts bt jm : String) (q : JObj) (qt : String),
      jm ∉ JUDGE_MODELS →
      ∃ e, evalOne gt_map ask (fun ma gt => score_answer apiKey net pA pB ma gt jm bt)
          doc em jm bk ts q qt =
        ⟨qt, .null, fallbackScores e,
          errorMeta doc em jm bk (jgetD q "category" (.str "Uncategorized")) e ts⟩) := by
  constructor
  · intro k net net2 sys usr model h
    exact ⟨call_judge_llm_bad_model k net sys usr model h,
      (call_judge_llm_bad_model k net sys usr model h).trans
        (call_judge_llm_bad_model k net2 sys usr model h).symm⟩
  · intro apiKey net pA pB gt_map ask doc em bk ts bt jm q qt h
    obtain ⟨e, he⟩ := evalCore_error_of_scorer_error gt_map ask
      (fun ma gt => score_answer apiKey net pA pB ma gt jm bt) qt
      (fun ma gt => score_answer_bad_judge apiKey net pA pB ma gt jm bt h)
    exact ⟨e, by simp [evalOne, he]⟩

/-- Counterexample to C6 as stated: a two-question run with the judge
model "bad/model" (not in the allow-list) does *not* abort — it completes
with `.ok` and two zero-score fallback rows. -/
theorem C6_counterexample :
    evaluate_document_loop
      [("q1", [("question", .str "q1")]), ("q2", [("question", .str "q2")])]
      (fun _ => .ok [("answer", .str "a"), ("rationale", .str "r")])
      (fun ma gt => score_answer (some "key") (fun _ _ _ => .error "network unused")
        "PA" "PB" ma gt "bad/model" "B")
      "doc" "em" "bad/model" "B" "ts"
      [[("question", .str "q1")], [("question", .str "q2")]] =
    .ok [⟨"q1", .null, fallbackScores (judgeNotSupportedMsg "bad/model"),
          errorMeta "doc" "em" "bad/model" "B" (.str "Uncategorized")
            (judgeNotSupportedMsg "bad/model") "ts"⟩,
         ⟨"q2", .null, fallbackScores (judgeNotSupportedMsg "bad/model"),
          errorMeta "doc" "em" "bad/model" "B" (.str "Uncategorized")
            (judgeNotSupportedMsg "bad/model") "ts"⟩] := rfl

/-- Witness for C6: the amended behavior at concrete inputs. -/
theorem C6_bad_judge_model_witness :
    (call_judge_llm (some "k") (fun _ _ _ => .ok "x".data) "s" "u" "bad/model" =
      .error (judgeNotSupportedMsg "bad/model")) ∧
    (∃ e, evalOne [("q1", [("question", .str "q1")])]
        (fun _ => .ok [("answer", .str "a"), ("rationale", .str "r")])
        (fun ma gt => score_answer (some "key") (fun _ _ _ => .error "net")
          "PA" "PB" ma gt "bad/model" "B")
        "doc" "em" "bad/model" "B" "ts" [("question", .str "q1")] "q1" =
      ⟨"q1", .null, fallbackScores e,
        errorMeta "doc" "em" "bad/model" "B" (.str "Uncategorized") e "ts"⟩) :=
  ⟨(C6_bad_judge_model.1 "k" (fun _ _ _ => .ok "x".data) (fun _ _ _ => .ok "x".data)
      "s" "u" "bad/model" (by decide)).1,
   C6_bad_judge_model.2 (some "key") (fun _ _ _ => .error "net") "PA" "PB"
      [("q1", [("question", .str "q1")])]
      (fun _ => .ok [("answer", .str "a"), ("rationale", .str "r")])
      "doc" "em" "B" "ts" "B" "bad/model" [("question", .str "q1")] "q1" (by decide)⟩

/-! ## C5: filename-derived model and benchmark -/

/-- Counterexample to C5 as stated: the model name is *not* derived "only
when not already present" — `load_results` overwrites a
metadata-provided `extractor_model` with the filename-derived name. -/
theorem C5_counterexample :
    dictGet ((jgetD (load_results_entry "reportX_benchmark_a_openai-gpt5.jsonl".data
        [("metadata", .obj [("extractor_model", .str "meta-model")])])
        "metadata" (.obj [])).asObjD) "extractor_model" = some (.str "openai-gpt5") ∧
    Json.str "openai-gpt5" ≠ Json.str "meta-model" :=
  ⟨rfl, by simp⟩

/-- C5 (amended): `load_results` always derives the extractor model from
the filename pattern `..._benchmark_<a|b>_<modelname>.jsonl`,
*overwriting* any metadata-provided value and using "unknown_model" when
the pattern does not match; the benchmark is set via `setdefault` to the
uppercased letter on a match and to Python `None` otherwise, so an
unmatched filename groups under `None` — the aggregate-side
"unknown_benchmark" default never fires for loaded rows.  In particular
`reportX_benchmark_a_openai-gpt5.jsonl` yields benchmark "A" and model
"openai-gpt5". -/
theorem C5_filename_derivation :
    (filenameMatch "reportX_benchmark_a_openai-gpt5.jsonl".data =
      some ("A", "openai-gpt5")) ∧
    (∀ (fname : List Char) (entry : JObj),
      dictGet ((jgetD (load_results_entry fname entry) "metadata" (.obj [])).asObjD)
          "extractor_model" =
        some (.str (match filenameMatch fname with
          | some p => p.2
          | none => "unknown_model")) ∧
      dictGet ((jgetD (load_results_entry fname entry) "metadata" (.obj [])).asObjD)
          "benchmark" =
        some (dictGetD ((jgetD entry "metadata" (.obj [])).asObjD) "benchmark"
          (match filenameMatch fname with
            | some p => .str p.1
            | none => .null))) ∧
    (dictGet ((jgetD (load_results_entry "results.jsonl".data []) "metadata"
        (.obj [])).asObjD) "extractor_model" = some (.str "unknown_model") ∧
     dictGet ((jgetD (load_results_entry "results.jsonl".data []) "metadata"
        (.obj [])).asObjD) "benchmark" = some .null ∧
     entryGroupKey (load_results_entry "results.jsonl".data []) =
       (.str "unknown_model", .str "unknown_document", .null)) := by
  refine ⟨rfl, ?_, rfl, rfl, rfl⟩
  intro fname entry
  simp only [load_results_entry]
  constructor
  · rw [show ∀ x : JObj, jgetD (dictSet entry "metadata" (.obj x)) "metadata" (.obj []) =
        .obj x from fun x => by simp [jgetD, dictGetD, dictGet_dictSet]]
    simp only [Json.asObjD]
    rw [dictGet_dictSet]
    cases filenameMatch fname with
    | none => simp
    | some p => simp
  · rw [show ∀ x : JObj, jgetD (dictSet entry "metadata" (.obj x)) "metadata" (.obj []) =
        .obj x from fun x => by simp [jgetD, dictGetD, dictGet_dictSet]]
    simp only [Json.asObjD]
    rw [dictGet_dictSet, if_neg (by simp), dictGet_dictSetdefault, if_pos rfl]
    cases filenameMatch fname with
    | none => simp
    | some p => simp

/-! ## C8: first-brace-to-last-brace extraction -/

theorem findIdx?_append_none {α : Type} (p : α → Bool) (pre l : List α)
    (h : ∀ x ∈ pre, ¬ p x) :
    List.findIdx? p (pre ++ l) = (List.findIdx? p l).map (· + pre.length) := by
  rw [List.findIdx?_append,
    List.findIdx?_eq_none_iff.mpr (by intro x hx; simpa using h x hx)]
  rfl

/-- The inner tolerant-parsing law: on a cleaned text that does not parse
directly and decomposes as prose, a braced body and prose, the parser
parses exactly the first-`{`-to-last-`}` slice — the body — and on
failure raises the error carrying the raw text. -/
theorem tolerantParse_prose (l pre body post : List Char) (msgPre : String)
    (hd : fenceClean l = pre ++ body ++ post)
    (hpre : ∀ c ∈ pre, c ≠ lbrace)
    (hpost : ∀ c ∈ post, c ≠ rbrace)
    (hb1 : body.head? = some lbrace)
    (hb2 : body.getLast? = some rbrace)
    (hparse : jsonLoads (fenceClean l) = none) :
    tolerantParse msgPre l =
      match jsonLoads body with
      | some v => .ok v
      | none => .error (msgPre ++ String.mk (fenceClean l)) := by
  obtain ⟨tb, hbody⟩ : ∃ tb, body = lbrace :: tb := by
    cases body with
    | nil => exact Option.noConfusion hb1
    | cons c t =>
      simp only [List.head?_cons, Option.some.injEq] at hb1
      exact ⟨t, by rw [hb1]⟩
  have hbne : body ≠ [] := by simp [hbody]
  have hidx : idxOf lbrace (fenceClean l) = some pre.length := by
    rw [hd, idxOf, List.append_assoc,
      findIdx?_append_none _ pre _ (by intro x hx; simpa using hpre x hx)]
    rw [hbody]
    simp [List.findIdx?_cons]
  have hrev : (fenceClean l).reverse = post.reverse ++ body.reverse ++ pre.reverse := by
    simp [hd]
  have hb2' : body.reverse.head? = some rbrace := by
    rw [List.head?_reverse]
    exact hb2
  obtain ⟨rb, hrbody⟩ : ∃ rb, body.reverse = rbrace :: rb := by
    cases hbr : body.reverse with
    | nil => rw [hbr] at hb2'; exact Option.noConfusion hb2'
    | cons c t =>
      rw [hbr] at hb2'
      simp only [List.head?_cons, Option.some.injEq] at hb2'
      exact ⟨t, by rw [hb2']⟩
  have hridx : ridxOf rbrace (fenceClean l) =
      some ((fenceClean l).length - 1 - post.length) := by
    rw [ridxOf, hrev, List.append_assoc,
      findIdx?_append_none _ post.reverse _ (by intro x hx; simp at hx; simpa using hpost x hx)]
    rw [hrbody]
    simp [List.findIdx?_cons, hd]
  have hlen : (fenceClean l).length = pre.length + body.length + post.length := by
    rw [hd]
    simp only [List.length_append]
  have hbpos : 1 ≤ body.length := by
    cases body with
    | nil => exact absurd rfl hbne
    | cons c t => simp
  have hslice : sliceIncl (fenceClean l) pre.length
      ((fenceClean l).length - 1 - post.length) = body := by
    rw [sliceIncl, hd, List.append_assoc, List.drop_left]
    have harith : (pre ++ (body ++ post)).length - 1 - post.length + 1 - pre.length =
        body.length := by
      simp only [List.length_append]
      omega
    rw [harith, List.take_left]
  simp only [tolerantParse, hparse, hidx, hridx, hslice]

/-- C8: on text that does not parse directly and contains one well-formed
braced object surrounded by prose, the answer parser returns the parse of
exactly the substring from the first `{` to the last `}` inclusive, and
when that also fails it errors with the malformed-JSON message carrying
the raw text.  (The judge-side copy in `call_judge_llm` shares the same
`tolerantParse` body, with its own message prefix.) -/
theorem C8_prose_extraction :
    ∀ (l pre body post : List Char),
      fenceClean l = pre ++ body ++ post →
      (∀ c ∈ pre, c ≠ lbrace) →
      (∀ c ∈ post, c ≠ rbrace) →
      body.head? = some lbrace →
      body.getLast? = some rbrace →
      jsonLoads (fenceClean l) = none →
      parse_extractor_output l =
        match jsonLoads body with
        | some v => .ok v
        | none => .error ("Extractor returned malformed JSON:\n\n" ++
            String.mk (fenceClean l)) :=
  fun l pre body post hd hpre hpost hb1 hb2 hp =>
    tolerantParse_prose l pre body post _ hd hpre hpost hb1 hb2 hp

/-- Witness for C8: a concrete prose-wrapped object is extracted exactly. -/
theorem C8_prose_extraction_witness :
    parse_extractor_output "Answer: \x7b\"a\": 1\x7d thanks".data =
      match jsonLoads "\x7b\"a\": 1\x7d".data with
      | some v => .ok v
      | none => .error ("Extractor returned malformed JSON:\n\n" ++
          String.mk (fenceClean "Answer: \x7b\"a\": 1\x7d thanks".data)) :=
  C8_prose_extraction "Answer: \x7b\"a\": 1\x7d thanks".data
    "Answer: ".data "\x7b\"a\": 1\x7d".data " thanks".data
    (by decide) (by decide) (by decide) (by decide) (by decide) (by decide)

/-! ## C7: fence-wrapping and the `json` language tag -/


theorem dropWhile_eq_self_of_headFalse (p : Char → Bool) (l : List Char) (c : Char)
    (hh : l.head? = some c) (hp : p c = false) : l.dropWhile p = l := by
  cases l with
  | nil => rfl
  | cons a t =>
    simp only [List.head?_cons, Option.some.injEq] at hh
    rw [List.dropWhile_cons, hh, hp]
    simp

theorem not_infix_append_newline (s : List Char) (h : ¬ jsonWord <:+: s) :
    ¬ jsonWord <:+: (s ++ ['\n']) := by
  intro hc
  obtain ⟨a, b, hab⟩ := hc
  rcases List.eq_nil_or_concat b with rfl | ⟨b2, x, rfl⟩
  · rw [List.append_nil] at hab
    have hlast : (a ++ jsonWord).getLast? = some 'n' := by
      rw [show a ++ jsonWord = (a ++ ['j', 's', 'o']) ++ ['n'] from by simp [jsonWord]]
      exact List.getLast?_concat _
    rw [hab, List.getLast?_concat] at hlast
    exact absurd (Option.some.inj hlast) (by decide)
  · rw [List.concat_eq_append, ← List.append_assoc] at hab
    obtain ⟨h1, _⟩ := List.append_inj' hab (by simp)
    exact h ⟨a, b2, h1⟩

theorem removeJson_eq_self (s : List Char) (h : ¬ jsonWord <:+: s) :
    removeJson s = s := by
  induction s using removeJson.induct with
  | case1 rest ih =>
    exact absurd ⟨[], rest, by simp [jsonWord]⟩ h
  | case2 c rest hne ih =>
    have hr : ¬ jsonWord <:+: rest :=
      fun hc => h (hc.trans (List.suffix_cons c rest).isInfix)
    rw [removeJson.eq_2 c rest hne, ih hr]
  | case3 => rfl

theorem pyStrip_eq_self (l : List Char) (h1 : l.dropWhile isPySpace = l)
    (h2 : l.reverse.dropWhile isPySpace = l.reverse) : pyStrip l = l := by
  rw [pyStrip, h1, h2, List.reverse_reverse]

theorem fenceClean_eq_self (s : List Char) (hs1 : s.dropWhile isPySpace = s)
    (hs2 : s.reverse.dropWhile isPySpace = s.reverse)
    (hticks : startsTicks s = false) : fenceClean s = s := by
  rw [fenceClean, pyStrip_eq_self s hs1 hs2, hticks]
  simp

theorem fenceClean_wrap (s : List Char) (hs1 : s.dropWhile isPySpace = s)
    (hs2 : s.reverse.dropWhile isPySpace = s.reverse) (hsne : s ≠ [])
    (hnojson : ¬ jsonWord <:+: s) : fenceClean (fenceWrapJson s) = s := by
  obtain ⟨c, cs, rfl⟩ : ∃ c cs, s = c :: cs := by
    cases s with
    | nil => exact absurd rfl hsne
    | cons c cs => exact ⟨c, cs, rfl⟩
  have hc : isPySpace c = false := by
    have := List.dropWhile_eq_self_iff.mp hs1 (by simp)
    simpa using this
  have hA : pyStrip (fenceWrapJson (c :: cs)) = fenceWrapJson (c :: cs) := by
    apply pyStrip_eq_self
    · exact dropWhile_eq_self_of_headFalse isPySpace _ btick rfl rfl
    · refine dropWhile_eq_self_of_headFalse isPySpace _ btick ?_ rfl
      rw [List.head?_reverse]
      rw [show fenceWrapJson (c :: cs) =
        ([btick, btick, btick, 'j', 's', 'o', 'n', '\n'] ++ (c :: cs) ++
          ['\n', btick, btick]) ++ [btick] from by simp [fenceWrapJson]]
      exact List.getLast?_concat _
  have hC : stripTicks (fenceWrapJson (c :: cs)) =
      'j' :: 's' :: 'o' :: 'n' :: '\n' :: ((c :: cs) ++ ['\n']) := by
    rw [stripTicks]
    rw [show List.dropWhile (fun x => x = btick) (fenceWrapJson (c :: cs)) =
      ['j', 's', 'o', 'n', '\n'] ++ ((c :: cs) ++ ['\n', btick, btick, btick]) from rfl]
    rw [List.reverse_append, List.reverse_append]
    rw [show List.dropWhile (fun x => x = btick)
        ((['\n', btick, btick, btick].reverse ++ (c :: cs).reverse) ++
          ['j', 's', 'o', 'n', '\n'].reverse) =
      '\n' :: ((c :: cs).reverse ++ ['\n', 'n', 'o', 's', 'j']) from rfl]
    rw [List.reverse_cons, List.reverse_append, List.reverse_reverse]
    rfl
  have hD : removeJson ('j' :: 's' :: 'o' :: 'n' :: '\n' :: ((c :: cs) ++ ['\n'])) =
      '\n' :: ((c :: cs) ++ ['\n']) := by
    rw [removeJson.eq_1]
    rw [removeJson.eq_2 '\n' _ (by intro r h1 h2; exact absurd h1 (by decide))]
    rw [removeJson_eq_self _ (not_infix_append_newline _ hnojson)]
  have hE : pyStrip ('\n' :: ((c :: cs) ++ ['\n'])) = c :: cs := by
    rw [pyStrip]
    rw [show List.dropWhile isPySpace ('\n' :: ((c :: cs) ++ ['\n'])) =
      List.dropWhile isPySpace ((c :: cs) ++ ['\n']) from by
        rw [List.dropWhile_cons]
        simp [isPySpace]]
    rw [show List.dropWhile isPySpace ((c :: cs) ++ ['\n']) = (c :: cs) ++ ['\n'] from by
      rw [List.cons_append, List.dropWhile_cons, hc]
      simp]
    rw [show ((c :: cs) ++ ['\n']).reverse = '\n' :: (c :: cs).reverse from by
      rw [List.reverse_append]
      rfl]
    rw [List.dropWhile_cons]
    rw [show isPySpace '\n' = true from rfl]
    simp only [if_true]
    rw [hs2, List.reverse_reverse]
  rw [fenceClean, hA]
  rw [show startsTicks (fenceWrapJson (c :: cs)) = true from rfl]
  simp only [if_true]
  rw [hC, hD, hE]

/-- Counterexample to C7 as stated: the fence cleanup removes every
occurrence of the substring `json` from the whole text, not only the
language tag, so a wrapped serialization whose content contains "json" is
mangled: the wrapped text parses to a *different* object than the
unwrapped serialization. -/
theorem C7_counterexample :
    jsonLoads "\x7b\"a\": \"json\"\x7d".data = some (.obj [("a", .str "json")]) ∧
    parse_extractor_output "\x7b\"a\": \"json\"\x7d".data =
      .ok (.obj [("a", .str "json")]) ∧
    parse_extractor_output "```json\n\x7b\"a\": \"json\"\x7d\n```".data =
      .ok (.obj [("a", .str "")]) ∧
    Json.obj [("a", .str "")] ≠ Json.obj [("a", .str "json")] :=
  ⟨rfl, rfl, rfl, by simp⟩

/-- C7 (amended): for content with no leading/trailing whitespace, not
itself starting with a fence, and containing no occurrence of the
substring `json` — in particular the serialization of any JSON object
whose text avoids "json" — parsing the fence-wrapped, `json`-tagged text
yields the same result as parsing the unwrapped text: the cleanup strips
exactly the fences and the tag.  (Content containing "json" is mangled,
see the counterexample.) -/
theorem C7_fence_unwrap (s : List Char)
    (hs1 : s.dropWhile isPySpace = s)
    (hs2 : s.reverse.dropWhile isPySpace = s.reverse)
    (hsne : s ≠ [])
    (hticks : startsTicks s = false)
    (hnojson : ¬ jsonWord <:+: s) :
    parse_extractor_output (fenceWrapJson s) = parse_extractor_output s := by
  have h1 : fenceClean (fenceWrapJson s) = s := fenceClean_wrap s hs1 hs2 hsne hnojson
  have h2 : fenceClean s = s := fenceClean_eq_self s hs1 hs2 hticks
  simp only [parse_extractor_output, tolerantParse, h1, h2]

/-- Witness for C7: a concrete json-free object serialization survives
wrapping. -/
theorem C7_fence_unwrap_witness :
    parse_extractor_output (fenceWrapJson "\x7b\"a\": 1\x7d".data) =
      parse_extractor_output "\x7b\"a\": 1\x7d".data :=
  C7_fence_unwrap "\x7b\"a\": 1\x7d".data (by decide) (by decide) (by decide)
    (by decide) (by decide)

/-! ## C3: aggregation lemmas -/

theorem dictGet_eq_none_iff_not_mem {κ α : Type} [DecidableEq κ]
    (m : List (κ × α)) (k : κ) :
    dictGet m k = none ↔ k ∉ m.map Prod.fst := by
  induction m with
  | nil => simp [dictGet_nil]
  | cons p rest ih =>
    obtain ⟨k0, v0⟩ := p
    by_cases h : k0 = k
    · subst h
      simp [dictGet_cons]
    · have h2 : ¬k = k0 := fun hc => h hc.symm
      simp [dictGet_cons, h, ih, h2]

theorem keys_dictUpd {κ α : Type} [DecidableEq κ] (m : List (κ × α)) (k : κ)
    (f : α → α) (d : α) :
    (dictUpd m k f d).map Prod.fst =
      if k ∈ m.map Prod.fst then m.map Prod.fst else m.map Prod.fst ++ [k] := by
  induction m with
  | nil => simp [dictUpd]
  | cons p rest ih =>
    obtain ⟨k0, v0⟩ := p
    by_cases h : k0 = k
    · subst h
      simp [dictUpd]
    · have h2 : ¬k = k0 := fun hc => h hc.symm
      simp only [dictUpd, if_neg h, List.map_cons, ih]
      by_cases hm : k ∈ rest.map Prod.fst <;> simp [hm, h, h2]

theorem mem_dictUpd {κ α : Type} [DecidableEq κ] (m : List (κ × α)) (k : κ)
    (f : α → α) (d : α) (p : κ × α) (hp : p ∈ dictUpd m k f d) :
    p ∈ m ∨ p = (k, f (dictGetD m k d)) := by
  induction m with
  | nil =>
    simp [dictUpd] at hp
    exact Or.inr (by simp [hp, dictGetD, dictGet_nil])
  | cons q rest ih =>
    obtain ⟨k0, v0⟩ := q
    by_cases h : k0 = k
    · subst h
      simp only [dictUpd, if_pos rfl] at hp
      rcases List.mem_cons.mp hp with h1 | h2
      · exact Or.inr (by simp [h1, dictGetD, dictGet_cons])
      · exact Or.inl (List.mem_cons_of_mem _ h2)
    · simp only [dictUpd, if_neg h] at hp
      rcases List.mem_cons.mp hp with h1 | h2
      · exact Or.inl (by simp [h1])
      · rcases ih h2 with h3 | h4
        · exact Or.inl (List.mem_cons_of_mem _ h3)
        · refine Or.inr (h4.trans ?_)
          simp [dictGetD, dictGet_cons, h]


theorem innerNodup_groupAdd (g : List (GroupKey × List (Json × List ℚ)))
    (t : GroupKey × Json × ℚ) (hg : InnerNodup g) : InnerNodup (groupAdd g t) := by
  intro p hp
  rcases mem_dictUpd _ _ _ _ p hp with h1 | h2
  · exact hg p h1
  · subst h2
    have hcm : ((dictGetD g t.1 []).map Prod.fst).Nodup := by
      rcases hf : g.find? (fun p => p.1 = t.1) with _ | w
      · simp [dictGetD, dictGet, hf]
      · have hw : w ∈ g := List.mem_of_find?_eq_some hf
        have hwv : dictGetD g t.1 [] = w.2 := by simp [dictGetD, dictGet, hf]
        rw [hwv]
        exact hg w hw
    rw [keys_dictUpd]
    by_cases hm : t.2.1 ∈ (dictGetD g t.1 []).map Prod.fst
    · simpa [hm] using hcm
    · simp only [hm, if_false]
      exact List.Nodup.append hcm (by simp) (by
        simp only [List.disjoint_singleton]
        exact hm)

theorem innerNodup_groupedOf (ts : List (GroupKey × Json × ℚ)) :
    InnerNodup (groupedOf ts) := by
  have : ∀ g, InnerNodup g → InnerNodup (ts.foldl groupAdd g) := by
    induction ts with
    | nil => exact fun g hg => hg
    | cons t rest ih =>
      intro g hg
      exact ih (groupAdd g t) (innerNodup_groupAdd g t hg)
  exact this [] (by intro p hp; simp at hp)

theorem groupAdd_cat_step (g : List (GroupKey × List (Json × List ℚ)))
    (t : GroupKey × Json × ℚ) (k : GroupKey) (c : Json) :
    dictGetD (dictGetD (groupAdd g t) k []) c [] =
      dictGetD (dictGetD g k []) c [] ++
        (if t.1 = k ∧ t.2.1 = c then [t.2.2] else []) := by
  simp only [groupAdd]
  by_cases hk : t.1 = k
  · subst hk
    rw [show dictGetD (dictUpd g t.1 (fun cm => dictUpd cm t.2.1 (fun vs => vs ++ [t.2.2]) []) []) t.1 [] = dictUpd (dictGetD g t.1 []) t.2.1 (fun vs => vs ++ [t.2.2]) [] from by
      simp [dictGetD, dictGet_dictUpd]]
    by_cases hc : t.2.1 = c
    · subst hc
      simp [dictGetD, dictGet_dictUpd]
    · have h2 : ¬(t.1 = t.1 ∧ t.2.1 = c) := fun hx => hc hx.2
      simp [dictGetD, dictGet_dictUpd, hc, h2]
  · have h2 : ¬(t.1 = k ∧ t.2.1 = c) := fun hx => hk hx.1
    rw [show dictGetD (dictUpd g t.1 (fun cm => dictUpd cm t.2.1 (fun vs => vs ++ [t.2.2]) []) []) k [] = dictGetD g k [] from by
      simp [dictGetD, dictGet_dictUpd, hk]]
    simp [h2]

theorem foldl_groupAdd_cat (ts : List (GroupKey × Json × ℚ))
    (g : List (GroupKey × List (Json × List ℚ))) (k : GroupKey) (c : Json) :
    dictGetD (dictGetD (ts.foldl groupAdd g) k []) c [] =
      dictGetD (dictGetD g k []) c [] ++
        (ts.filter (fun t => decide (t.1 = k) && decide (t.2.1 = c))).map
          (fun t => t.2.2) := by
  induction ts generalizing g with
  | nil => simp
  | cons t rest ih =>
    rw [List.foldl_cons, ih (groupAdd g t), groupAdd_cat_step]
    by_cases hp : t.1 = k ∧ t.2.1 = c
    · simp [hp, List.filter_cons, hp.1, hp.2, List.append_assoc]
    · have hff : (decide (t.1 = k) && decide (t.2.1 = c)) = false := by
        by_cases h1 : t.1 = k
        · have h2 : ¬t.2.1 = c := fun h2 => hp ⟨h1, h2⟩
          simp [h1, h2]
        · simp [h1]
      simp [hp, List.filter_cons, hff]

theorem grouped_cat_values (ts : List (GroupKey × Json × ℚ)) (k : GroupKey) (c : Json) :
    dictGetD (dictGetD (groupedOf ts) k []) c [] =
      (ts.filter (fun t => decide (t.1 = k) && decide (t.2.1 = c))).map
        (fun t => t.2.2) := by
  rw [groupedOf, foldl_groupAdd_cat]
  simp [dictGetD, dictGet_nil]


theorem dictUpd_flatten_perm (cm : List (Json × List ℚ)) (c0 : Json) (s : ℚ) :
    List.Perm ((dictUpd cm c0 (fun vs => vs ++ [s]) []).map (fun p => p.2)).flatten
      ((cm.map (fun p => p.2)).flatten ++ [s]) := by
  induction cm with
  | nil => simp [dictUpd]
  | cons p rest ih =>
    by_cases h : p.1 = c0
    · obtain ⟨c1, vs⟩ := p
      simp only at h
      simp only [dictUpd, if_pos h, List.map_cons, List.flatten_cons]
      rw [List.append_assoc, List.append_assoc]
      exact List.Perm.append_left vs List.perm_append_comm
    · obtain ⟨c1, vs⟩ := p
      simp only at h
      simp only [dictUpd, if_neg h, List.map_cons, List.flatten_cons]
      refine (List.Perm.append_left vs ih).trans ?_
      rw [List.append_assoc]

theorem groupAdd_joinVals_perm (g : List (GroupKey × List (Json × List ℚ)))
    (t : GroupKey × Json × ℚ) (k : GroupKey) :
    List.Perm (joinVals (groupAdd g t) k)
      (joinVals g k ++ (if t.1 = k then [t.2.2] else [])) := by
  by_cases hk : t.1 = k
  · subst hk
    simp only [joinVals, groupAdd, if_pos rfl]
    rw [show dictGetD (dictUpd g t.1 (fun cm => dictUpd cm t.2.1 (fun vs => vs ++ [t.2.2]) []) []) t.1 [] = dictUpd (dictGetD g t.1 []) t.2.1 (fun vs => vs ++ [t.2.2]) [] from by
      simp [dictGetD, dictGet_dictUpd]]
    exact dictUpd_flatten_perm _ _ _
  · simp only [joinVals, groupAdd, hk, if_false]
    rw [show dictGetD (dictUpd g t.1 (fun cm => dictUpd cm t.2.1 (fun vs => vs ++ [t.2.2]) []) []) k [] = dictGetD g k [] from by
      simp [dictGetD, dictGet_dictUpd, hk]]
    simp

theorem foldl_groupAdd_joinVals (ts : List (GroupKey × Json × ℚ))
    (g : List (GroupKey × List (Json × List ℚ))) (k : GroupKey) :
    List.Perm (joinVals (ts.foldl groupAdd g) k)
      (joinVals g k ++ (ts.filter (fun t => decide (t.1 = k))).map (fun t => t.2.2)) := by
  induction ts generalizing g with
  | nil => simp
  | cons t rest ih =>
    rw [List.foldl_cons]
    refine (ih (groupAdd g t)).trans ?_
    refine (List.Perm.append_right _ (groupAdd_joinVals_perm g t k)).trans ?_
    by_cases hk : t.1 = k
    · simp [hk, List.filter_cons, List.append_assoc]
    · simp [hk, List.filter_cons]

theorem grouped_joinVals (ts : List (GroupKey × Json × ℚ)) (k : GroupKey) :
    List.Perm (joinVals (groupedOf ts) k)
      ((ts.filter (fun t => decide (t.1 = k))).map (fun t => t.2.2)) := by
  have := foldl_groupAdd_joinVals ts [] k
  simpa [joinVals, dictGetD, dictGet_nil] using this

theorem dictGet_filterMap_none (cm : List (Json × List ℚ)) (c : Json)
    (h : c ∉ cm.map Prod.fst) :
    dictGet (cm.filterMap catScoreEntry) c = none := by
  induction cm with
  | nil => rfl
  | cons p rest ih =>
    obtain ⟨c1, vs⟩ := p
    have hne : c1 ≠ c := fun hc => h (by simp [hc])
    have hr : c ∉ rest.map Prod.fst := fun hc => h (by simp [hc])
    rw [List.filterMap_cons]
    rcases eq_or_ne vs [] with hv | hv
    · rw [show catScoreEntry (c1, vs) = none from by simp [catScoreEntry, hv]]
      exact ih hr
    · rw [show catScoreEntry (c1, vs) = some (c1, listMean vs) from by
        simp [catScoreEntry, hv]]
      rw [dictGet_cons, if_neg hne]
      exact ih hr

theorem dictGet_filterMap_mean (cm : List (Json × List ℚ))
    (hnd : (cm.map Prod.fst).Nodup) (c : Json) :
    dictGet (cm.filterMap catScoreEntry) c =
      match dictGet cm c with
      | some vs => if vs.isEmpty then none else some (listMean vs)
      | none => none := by
  induction cm with
  | nil => rfl
  | cons p rest ih =>
    obtain ⟨c1, vs⟩ := p
    simp only [List.map_cons, List.nodup_cons] at hnd
    rw [List.filterMap_cons]
    by_cases hc : c1 = c
    · subst hc
      rcases eq_or_ne vs [] with hv | hv
      · rw [show catScoreEntry (c1, vs) = none from by simp [catScoreEntry, hv]]
        rw [dictGet_filterMap_none rest c1 hnd.1, dictGet_cons, if_pos rfl]
        simp [hv]
      · rw [show catScoreEntry (c1, vs) = some (c1, listMean vs) from by
          simp [catScoreEntry, hv]]
        rw [dictGet_cons, if_pos rfl, dictGet_cons, if_pos rfl]
        simp [hv]
    · rcases eq_or_ne vs [] with hv | hv
      · rw [show catScoreEntry (c1, vs) = none from by simp [catScoreEntry, hv]]
        rw [ih hnd.2, dictGet_cons, if_neg hc]
      · rw [show catScoreEntry (c1, vs) = some (c1, listMean vs) from by
          simp [catScoreEntry, hv]]
        rw [dictGet_cons, if_neg hc, ih hnd.2, dictGet_cons, if_neg hc]

theorem summaryFor_category_eq (ts : List (GroupKey × Json × ℚ)) (k : GroupKey)
    (c : Json) :
    dictGet (summaryFor (groupedOf ts) k).1 c =
      (if ((ts.filter (fun t => decide (t.1 = k) && decide (t.2.1 = c))).map
            (fun t => t.2.2)).isEmpty
       then none
       else some (listMean ((ts.filter (fun t => decide (t.1 = k) &&
          decide (t.2.1 = c))).map (fun t => t.2.2)))) := by
  have hval := grouped_cat_values ts k c
  cases hk : dictGet (groupedOf ts) k with
  | none =>
    have hcm : dictGetD (groupedOf ts) k [] = [] := by simp [dictGetD, hk]
    rw [hcm] at hval
    rw [show (summaryFor (groupedOf ts) k).1 = [] from by simp [summaryFor, hk]]
    rw [show dictGetD ([] : List (Json × List ℚ)) c [] = [] from rfl] at hval
    rw [← hval]
    simp [dictGet_nil]
  | some cm =>
    have hcm : dictGetD (groupedOf ts) k [] = cm := by simp [dictGetD, hk]
    rw [hcm] at hval
    have hnd : (cm.map Prod.fst).Nodup := by
      rcases hf : (groupedOf ts).find? (fun p => p.1 = k) with _ | w
      · rw [show dictGet (groupedOf ts) k =
          ((groupedOf ts).find? (fun p => p.1 = k)).map (fun p => p.2) from rfl, hf] at hk
        exact absurd hk (by simp)
      · have hw := List.mem_of_find?_eq_some hf
        have hw2 : w.2 = cm := by
          rw [show dictGet (groupedOf ts) k =
            ((groupedOf ts).find? (fun p => p.1 = k)).map (fun p => p.2) from rfl, hf] at hk
          exact Option.some.inj hk
        rw [← hw2]
        exact innerNodup_groupedOf ts w hw
    rw [show (summaryFor (groupedOf ts) k).1 = cm.filterMap catScoreEntry from by
      simp [summaryFor, hk]]
    rw [dictGet_filterMap_mean cm hnd c]
    cases hc : dictGet cm c with
    | some vs =>
      have hvv : vs = dictGetD cm c [] := by simp [dictGetD, hc]
      rw [hvv, hval]
    | none =>
      have hvv : dictGetD cm c [] = [] := by simp [dictGetD, hc]
      rw [hvv] at hval
      rw [← hval]
      simp

theorem foldl_append_flatten (l : List (Json × List ℚ)) (init : List ℚ) :
    l.foldl (fun acc p => acc ++ p.2) init = init ++ (l.map (fun p => p.2)).flatten := by
  induction l generalizing init with
  | nil => simp
  | cons p rest ih => simp [ih, List.append_assoc]

theorem flatten_filter_nonempty (cm : List (Json × List ℚ)) :
    ((cm.filter (fun p => !p.2.isEmpty)).map (fun p => p.2)).flatten =
      (cm.map (fun p => p.2)).flatten := by
  induction cm with
  | nil => rfl
  | cons p rest ih =>
    by_cases hemp : p.2.isEmpty
    · have : p.2 = [] := List.isEmpty_iff.mp hemp
      simp [List.filter_cons, hemp, ih, this]
    · simp [List.filter_cons, hemp, ih]

theorem summaryFor_functional_eq (ts : List (GroupKey × Json × ℚ)) (k : GroupKey)
    (h : (ts.filter (fun t => decide (t.1 = k))) ≠ []) :
    (summaryFor (groupedOf ts) k).2 =
      listMean ((ts.filter (fun t => decide (t.1 = k))).map (fun t => t.2.2)) := by
  have hperm := grouped_joinVals ts k
  have hne : (ts.filter (fun t => decide (t.1 = k))).map (fun t => t.2.2) ≠ [] := by
    simpa using h
  have hjne : joinVals (groupedOf ts) k ≠ [] := by
    intro h0
    rw [h0] at hperm
    exact hne hperm.nil_eq.symm
  cases hk : dictGet (groupedOf ts) k with
  | none => exact absurd (by simp [joinVals, dictGetD, hk]) hjne
  | some cm =>
    have hcm : dictGetD (groupedOf ts) k [] = cm := by simp [dictGetD, hk]
    have hall : (cm.filter (fun p => !p.2.isEmpty)).foldl (fun acc p => acc ++ p.2) [] =
        joinVals (groupedOf ts) k := by
      rw [foldl_append_flatten, List.nil_append, flatten_filter_nonempty, joinVals, hcm]
    rw [show (summaryFor (groupedOf ts) k).2 =
      (if !((cm.filter (fun p => !p.2.isEmpty)).foldl
          (fun acc p => acc ++ p.2) []).isEmpty
       then listMean ((cm.filter (fun p => !p.2.isEmpty)).foldl
          (fun acc p => acc ++ p.2) [])
       else 0) from by simp [summaryFor, hk]]
    rw [hall]
    have hnee : (joinVals (groupedOf ts) k).isEmpty = false := by
      rcases hj : joinVals (groupedOf ts) k with _ | ⟨a, l⟩
      · exact absurd hj hjne
      · rfl
    rw [hnee]
    simp only [Bool.not_false, if_true]
    rw [listMean, listMean, hperm.sum_eq, hperm.length_eq]


theorem collectTriples_ok (entries : List JObj)
    (h : ∀ e ∈ entries, (extract_question_score e).isOk) :
    collectTriples entries = .ok (entries.map
      (fun e => (entryGroupKey e, entryCategory e, scoreOfD e))) := by
  apply mapME_ok_map
  intro e he
  cases hx : extract_question_score e with
  | error err =>
    have hok := h e he
    rw [hx] at hok
    simp [Except.isOk, Except.toBool] at hok
  | ok q => simp [hx, scoreOfD]



unseal Rat.add Rat.mul Rat.inv in
/-- C3: `aggregate` scores each entry by `question_score`, falling back to
`correctness_score`, else `0.0`; within a `(model, doc, benchmark)` group
each category's score is the arithmetic mean of that category's entry
scores, and the group's `functional_score` is the flat arithmetic mean of
*all* the group's entry scores (not the mean of category means).  In
particular two same-group same-category entries scoring `1.0` and `0.0`
give category mean `0.5` and group score `0.5`. -/
theorem C3_aggregate_group_means :
    (∀ (entries : List JObj),
      (∀ e ∈ entries, (extract_question_score e).isOk) →
      collectTriples entries = .ok (entries.map
        (fun e => (entryGroupKey e, entryCategory e, scoreOfD e)))) ∧
    (∀ (ts : List (GroupKey × Json × ℚ)) (k : GroupKey) (c : Json),
      dictGet (summaryFor (groupedOf ts) k).1 c =
        (if ((ts.filter (fun t => decide (t.1 = k) && decide (t.2.1 = c))).map
              (fun t => t.2.2)).isEmpty
         then none
         else some (listMean ((ts.filter (fun t => decide (t.1 = k) &&
            decide (t.2.1 = c))).map (fun t => t.2.2))))) ∧
    (∀ (ts : List (GroupKey × Json × ℚ)) (k : GroupKey),
      ts.filter (fun t => decide (t.1 = k)) ≠ [] →
      (summaryFor (groupedOf ts) k).2 =
        listMean ((ts.filter (fun t => decide (t.1 = k))).map (fun t => t.2.2))) ∧
    (dictGet (summaryFor (groupedOf demoTriples) demoKey).1 (Json.str "c") =
        some (1/2) ∧
      (summaryFor (groupedOf demoTriples) demoKey).2 = 1/2) :=
  ⟨collectTriples_ok, summaryFor_category_eq, summaryFor_functional_eq,
    by decide, by decide⟩

unseal Rat.add Rat.mul Rat.inv in
/-- Witness for C3: the law applied to a concrete entry list and the
concrete two-score group. -/
theorem C3_aggregate_group_means_witness :
    (collectTriples [[("scores", .obj [("question_score", .num 1)])]] =
      .ok ([[("scores", .obj [("question_score", .num 1)])]].map
        (fun e => (entryGroupKey e, entryCategory e, scoreOfD e)))) ∧
    ((summaryFor (groupedOf demoTriples) demoKey).2 =
      listMean ((demoTriples.filter (fun t => decide (t.1 = demoKey))).map
        (fun t => t.2.2))) :=
  ⟨C3_aggregate_group_means.1 [[("scores", .obj [("question_score", .num 1)])]]
      (by decide),
   C3_aggregate_group_means.2.2.1 demoTriples demoKey (by decide)⟩
